import Mathlib

/-!
# sysmond: battery model, power guard, CPU derivation and network rates

A shallow embedding of `src/sysmon.c`.

Conventions of the embedding

* C `float` and `double` values are `FVal`: either a finite value, kept as an
  exact rational, or one of the IEEE non-finite values `+inf`, `-inf`, `NaN`.
  Negative zero is not distinguished from zero; every divisor in the modelled
  code is an unsigned or non-negative quantity.  The operations of `FVal` are
  exact; where a claim is a bound that rounding can break, the rounded
  evaluation is modelled too (`ieee_round`, `cpu_update_ieee`,
  `read_cpu_info_ieee`): round to nearest, ties to even, every operation rounded
  to its type.
* `unsigned long` is a natural number below `2 ^ 64`, subtraction wraps.
* `uint16_t` and `uint8_t` fields are naturals, conversions reduce modulo
  `2 ^ 16` and `2 ^ 8`.
* C `int` is `Int` (overflow of `int` is not modelled); the nanoseconds of the
  sample period are a natural number, taken to fit the `long` that holds them.
* libm's `pow` is not part of the repository: functions that call it take it as
  a parameter, and `libm_pow` states what is assumed of it.
-/

namespace Sysmond

/-! ## Floating-point values -/

/-- Value of a C floating-point expression. -/
inductive FVal where
  | fin (q : ℚ)
  | pinf
  | ninf
  | nan
  deriving DecidableEq

namespace FVal

/-- Conversion of an unsigned integer to floating point. -/
def ofNat (n : Nat) : FVal := fin (n : ℚ)

/-- Conversion of a signed integer to floating point. -/
def ofInt (n : Int) : FVal := fin (n : ℚ)

/-- Unary minus. -/
def neg : FVal → FVal
  | fin q => fin (-q)
  | pinf => ninf
  | ninf => pinf
  | nan => nan

/-- IEEE addition. -/
def add : FVal → FVal → FVal
  | nan, _ => nan
  | _, nan => nan
  | fin a, fin b => fin (a + b)
  | fin _, pinf => pinf
  | fin _, ninf => ninf
  | pinf, fin _ => pinf
  | ninf, fin _ => ninf
  | pinf, pinf => pinf
  | ninf, ninf => ninf
  | pinf, ninf => nan
  | ninf, pinf => nan

/-- IEEE subtraction. -/
def sub (a b : FVal) : FVal := add a (neg b)

/-- Infinity carrying the sign of `q`, `NaN` for zero: the product `q * inf`. -/
def signedInf (q : ℚ) : FVal :=
  if q = 0 then nan else if 0 < q then pinf else ninf

/-- IEEE multiplication. -/
def mul : FVal → FVal → FVal
  | nan, _ => nan
  | _, nan => nan
  | fin a, fin b => fin (a * b)
  | fin a, pinf => signedInf a
  | fin a, ninf => signedInf (-a)
  | pinf, fin b => signedInf b
  | ninf, fin b => signedInf (-b)
  | pinf, pinf => pinf
  | ninf, ninf => pinf
  | pinf, ninf => ninf
  | ninf, pinf => ninf

/-- IEEE division; a zero divisor is `+0`. -/
def div : FVal → FVal → FVal
  | nan, _ => nan
  | _, nan => nan
  | fin a, fin b => if b = 0 then signedInf a else fin (a / b)
  | fin _, pinf => fin 0
  | fin _, ninf => fin 0
  | pinf, fin b => if b < 0 then ninf else pinf
  | ninf, fin b => if b < 0 then pinf else ninf
  | pinf, pinf => nan
  | pinf, ninf => nan
  | ninf, pinf => nan
  | ninf, ninf => nan

/-- C comparison `a < b`: false as soon as one side is `NaN`. -/
def lt : FVal → FVal → Bool
  | nan, _ => false
  | _, nan => false
  | fin a, fin b => decide (a < b)
  | fin _, pinf => true
  | fin _, ninf => false
  | pinf, _ => false
  | ninf, fin _ => true
  | ninf, pinf => true
  | ninf, ninf => false

/-- C comparison `a <= b`: false as soon as one side is `NaN`. -/
def le : FVal → FVal → Bool
  | nan, _ => false
  | _, nan => false
  | fin a, fin b => decide (a ≤ b)
  | fin _, pinf => true
  | fin _, ninf => false
  | pinf, pinf => true
  | pinf, _ => false
  | ninf, _ => true

end FVal

open FVal (fin pinf ninf nan)

/-! ## Data model -/

/-- Battery part of the application data (`sys_bat_t`). -/
structure sys_bat_t where
  bat_in : String
  max_voltage : Nat
  min_voltage : Nat
  cutoff_voltage : Nat
  ratio : FVal
  read_voltage : Nat
  percent : FVal
  deriving DecidableEq

/-- Per-core CPU state (`sys_cpu_t`). -/
structure sys_cpu_t where
  last_idle : Nat
  last_sum : Nat
  percent : FVal
  deriving DecidableEq

/-- Per-interface network state (`sys_net_inf_t`). -/
structure sys_net_inf_t where
  name : String
  tx : Nat
  rx : Nat
  rx_rate : FVal
  tx_rate : FVal
  deriving DecidableEq

/-- Application data (`app_data_t`), restricted to the fields the sampling and
derivation code reads or writes.  `sample_period_nsec` is
`sample_period.it_value.tv_nsec`, `net` the first `n_intf` interfaces. -/
structure app_data_t where
  bat_stat : sys_bat_t
  cpus : List sys_cpu_t
  net : List sys_net_inf_t
  n_cpus : Int
  sample_period_nsec : Nat
  pwoff_cd : Int
  power_off_percent : Nat
  deriving DecidableEq

/-! ## Battery model -/

/-- The expression `read_voltage * ratio` (lines 163 and 758). -/
def bat_volt (b : sys_bat_t) : FVal :=
  FVal.mul (FVal.ofNat b.read_voltage) b.ratio

/-- The function `map` (lines 161-175); `pow` is libm's. -/
def map (pow : FVal → FVal → FVal) (opt : app_data_t) : app_data_t :=
  let volt := bat_volt opt.bat_stat
  if FVal.lt volt (FVal.ofNat opt.bat_stat.min_voltage) then
    { opt with bat_stat := { opt.bat_stat with percent := fin 0 } }
  else
    let result :=
      FVal.sub (fin 101)
        (FVal.div (fin 101)
          (pow
            (FVal.add (fin 1)
              (pow
                (FVal.div
                  (FVal.mul (fin (133 / 100))
                    (FVal.sub volt (FVal.ofNat opt.bat_stat.min_voltage)))
                  (FVal.ofInt
                    ((opt.bat_stat.max_voltage : Int) - (opt.bat_stat.min_voltage : Int))))
                (fin (9 / 2))))
            (fin 3)))
    let result := if FVal.lt (fin 100) result then fin 100 else result
    { opt with bat_stat := { opt.bat_stat with percent := result } }

/-- What one attempt to read the battery input file gives: `open` fails, `read`
returns nothing, or `atoi` of the text read. -/
inductive bat_read where
  | open_failed
  | read_failed
  | value (n : Int)
  deriving DecidableEq

/-- The function `read_voltage` (lines 221-243): the new application data and the
return code. -/
def read_voltage (pow : FVal → FVal → FVal) (opts : app_data_t) (r : bat_read) :
    app_data_t × Int :=
  if opts.bat_stat.bat_in = "" then (opts, 0)
  else
    match r with
    | bat_read.open_failed => (opts, -1)
    | bat_read.read_failed => (opts, 0)
    | bat_read.value n =>
        (map pow
          { opts with bat_stat := { opts.bat_stat with read_voltage := (n % 65536).toNat } }, 0)

/-- The argument `opts->bat_stat.percent` that `log_to_file` prints as
`battery_percent` (line 503). -/
def battery_percent (opts : app_data_t) : FVal := opts.bat_stat.percent

/-! ## Power guard and main loop -/

/-- Lines 758-784 of `main`: the countdown after the check, and whether
`system("poweroff")` was called (after which `main` returns). -/
def power_guard (opts : app_data_t) (count_down : Int) : Int × Bool :=
  let volt := bat_volt opts.bat_stat
  if FVal.lt volt (FVal.ofNat opts.bat_stat.cutoff_voltage) then
    (count_down, false)
  else
    let count_down :=
      if FVal.le opts.bat_stat.percent (FVal.ofNat opts.power_off_percent) then
        count_down - 1
      else
        opts.pwoff_cd
    if count_down ≤ 0 then (count_down, true) else (count_down, false)

/-- State of `main` while it loops: the application data, the local
`count_down`, how many times `system("poweroff")` was called, whether `main`
has returned, and how many sampling passes (lines 786-822) were run. -/
structure main_state where
  opts : app_data_t
  count_down : Int
  poweroff_calls : Nat
  returned : Bool
  samples : Nat
  deriving DecidableEq

/-- Lines 740-746 of `main`: the per-core state at process start. -/
def init_cpus (n_cpus : Int) : List sys_cpu_t :=
  List.replicate n_cpus.toNat { last_sum := 0, last_idle := 0, percent := fin 0 }

/-- State of `main` when it enters the loop (lines 740-748). -/
def main_init (opts : app_data_t) : main_state :=
  { opts := { opts with cpus := init_cpus opts.n_cpus }, count_down := opts.pwoff_cd,
    poweroff_calls := 0, returned := false, samples := 0 }

/-- One iteration of the loop of `main` (lines 751-822), for the battery read
result `r` of that tick. -/
def main_iter (pow : FVal → FVal → FVal) (s : main_state) (r : bat_read) : main_state :=
  if s.opts.bat_stat.bat_in ≠ "" then
    let opts := (read_voltage pow s.opts r).1
    let g := power_guard opts s.count_down
    if g.2 then
      { s with opts := opts, count_down := g.1,
               poweroff_calls := s.poweroff_calls + 1, returned := true }
    else
      { s with opts := opts, count_down := g.1, samples := s.samples + 1 }
  else
    { s with samples := s.samples + 1 }

/-- The loop of `main` over the ticks that arrive while `running` is set: once
`main` has returned no further tick is executed. -/
def main_loop (pow : FVal → FVal → FVal) (s : main_state) : List bat_read → main_state
  | [] => s
  | r :: rs => if s.returned then s else main_loop pow (main_iter pow s r) rs

/-! ## CPU reader and derivation -/

/-- Largest `unsigned long`. -/
def ULONG_MAX : Nat := 2 ^ 64 - 1

/-- What `strtoul(token, NULL, 10)` returns for a token that spells the decimal
number `n`: values out of range saturate. -/
def strtoul (n : Nat) : Nat := min n ULONG_MAX

/-- Subtraction of `unsigned long` values, which wraps. -/
def ulong_sub (a b : Nat) : Nat := (a + 2 ^ 64 - b) % 2 ^ 64

/-- The loop over the tokens of one line of `/proc/stat` (lines 262-274):
`fields` are the numbers spelled by the tokens after the first one, `idle` is the
variable `idle` as the previous line left it.  Gives the new `(idle, sum)`. -/
def cpu_fields (idle : Nat) (fields : List Nat) : Nat × Nat :=
  ((match fields.get? 3 with
    | some v => strtoul v
    | none => idle),
   (fields.map strtoul).sum % 2 ^ 64)

/-- The divisor of line 275, `sum - last_sum`. -/
def cpu_divisor (c : sys_cpu_t) (sum : Nat) : Nat := ulong_sub sum c.last_sum

/-- Lines 275-277: the percentage and the new baseline of one core, with the
value of the expression of line 275 before any rounding (`cpu_update_ieee` is
the same expression with the roundings of `double` and `float`). -/
def cpu_update (c : sys_cpu_t) (idle sum : Nat) : sys_cpu_t :=
  { percent :=
      FVal.sub (fin 100)
        (FVal.div (FVal.mul (FVal.ofNat (ulong_sub idle c.last_idle)) (fin 100))
          (FVal.ofNat (cpu_divisor c sum))),
    last_idle := idle,
    last_sum := sum }

/-- Rounding of the result of a floating-point operation: a finite value is
rounded by `r`, the non-finite values stay. -/
def FVal.round (r : ℚ → ℚ) : FVal → FVal
  | FVal.fin q => fin (r q)
  | v => v

/-- Lines 275-277 with a rounding after every conversion and operation: `r64`
rounds the `double` results (the two conversions of `unsigned long`, the product
by `100.0`, the quotient, the difference from 100), `r32` the store into the
`float` field. -/
def cpu_update_with (r64 r32 : ℚ → ℚ) (c : sys_cpu_t) (idle sum : Nat) : sys_cpu_t :=
  { percent :=
      FVal.round r32
        (FVal.round r64
          (FVal.sub (fin 100)
            (FVal.round r64
              (FVal.div
                (FVal.round r64
                  (FVal.mul (FVal.round r64 (FVal.ofNat (ulong_sub idle c.last_idle)))
                    (fin 100)))
                (FVal.round r64 (FVal.ofNat (cpu_divisor c sum))))))),
    last_idle := idle,
    last_sum := sum }

/-- The body of the loop of `read_cpu_info` for a line that starts with `cpu`
(lines 262-277): the core's new state and the new value of `idle`. -/
def cpu_line (c : sys_cpu_t) (idle : Nat) (fields : List Nat) : sys_cpu_t × Nat :=
  let s := cpu_fields idle fields
  (cpu_update c s.1 s.2, s.1)

/-- The loop of `read_cpu_info` (lines 257-284) over the cores still to do.  A
line is `none` when `read_line` gives nothing or the line does not start with
`cpu`, and a missing line reads as nothing.  Gives the cores and how many of them
were updated before the loop ended. -/
def cpu_loop : List sys_cpu_t → List (Option (List Nat)) → Nat → List sys_cpu_t × Nat
  | [], _, _ => ([], 0)
  | c :: cs, some fields :: ls, idle =>
      let r := cpu_line c idle fields
      let rest := cpu_loop cs ls r.2
      (r.1 :: rest.1, rest.2 + 1)
  | c :: cs, _, _ => (c :: cs, 0)

/-- The function `read_cpu_info` (lines 245-292): `stat` is `none` when
`/proc/stat` cannot be opened, else its lines.  Only the first `n_cpus` entries
of `cpus` are visited. -/
def read_cpu_info (opts : app_data_t) (stat : Option (List (Option (List Nat)))) :
    app_data_t × Int :=
  match stat with
  | none => (opts, -1)
  | some lines =>
      let r := cpu_loop (opts.cpus.take opts.n_cpus.toNat) lines 0
      let opts := { opts with cpus := r.1 ++ opts.cpus.drop opts.n_cpus.toNat }
      if r.2 = 0 then (opts, -1) else (opts, (r.2 : Int))

/-- The value of the variable `idle` of `read_cpu_info` when its loop reaches
the line of index `i`, the lines before it having been parsed; `idle` is its value
when the loop starts, which is 0. -/
def cpu_idle_in : List (Option (List Nat)) → Nat → Nat → Nat
  | some f :: ls, i + 1, idle => cpu_idle_in ls i (cpu_fields idle f).1
  | _, _, idle => idle

/-- The local `period` of `read_net_statistic` (line 386), in seconds:
`tv_nsec / 1.0e9`. -/
def net_period (opts : app_data_t) : FVal :=
  FVal.div (FVal.ofNat opts.sample_period_nsec) (fin 1000000000)

/-- Lines 407 and 427: the rate from the counter just read, `bytes`, and the
counter stored by the tick before, `last`. -/
def net_rate (period : FVal) (bytes last : Nat) : FVal :=
  FVal.div (FVal.ofNat (ulong_sub bytes last)) period

/-- What the two statistics files of one interface give on a tick: for
`rx_bytes` and for `tx_bytes`, `none` when the file cannot be opened or read, else
the decimal number it spells. -/
structure net_read where
  rx : Option Nat
  tx : Option Nat
  deriving DecidableEq

/-- The loop of `read_net_statistic` (lines 387-429) over the interfaces still to
do: the interfaces after it and the return code, which is -1 as soon as one file
cannot be read (a missing entry of the readings is such a file). -/
def net_loop (period : FVal) : List sys_net_inf_t → List net_read → List sys_net_inf_t × Int
  | [], _ => ([], 0)
  | n :: ns, [] => (n :: ns, -1)
  | n :: ns, r :: rs =>
      match r.rx with
      | none => (n :: ns, -1)
      | some b =>
          let n1 := { n with rx_rate := net_rate period (strtoul b) n.rx, rx := strtoul b }
          match r.tx with
          | none => (n1 :: ns, -1)
          | some t =>
              let n2 := { n1 with tx_rate := net_rate period (strtoul t) n1.tx, tx := strtoul t }
              let rest := net_loop period ns rs
              (n2 :: rest.1, rest.2)

/-- The function `read_net_statistic` (lines 380-431): the new application data
and the return code. -/
def read_net_statistic (opts : app_data_t) (reads : List net_read) : app_data_t × Int :=
  let r := net_loop (net_period opts) opts.net reads
  ({ opts with net := r.1 }, r.2)

/-! ## Configuration -/

/-- A value of the configuration file, as the C library converts it; `tokens`
are the pieces `strtok` cuts it into at commas, each cut to the 31 bytes an
interface name holds. -/
structure ini_value where
  text : String
  atoi : Int
  atof : FVal
  strtoul : Nat
  tokens : List String := []
  deriving DecidableEq

/-- The callback `ini_handle` (lines 540-623) on the application data.  Keys
that only set fields outside the model, and unknown keys, leave it unchanged.
The battery input path is taken to fit its buffer of 256 bytes. -/
def ini_handle (opts : app_data_t) (name : String) (value : ini_value) : app_data_t :=
  if name = "battery_max_voltage" then
    { opts with bat_stat := { opts.bat_stat with max_voltage := (value.atoi % 65536).toNat } }
  else if name = "battery_min_voltage" then
    { opts with bat_stat := { opts.bat_stat with min_voltage := (value.atoi % 65536).toNat } }
  else if name = "battery_cutoff_votalge" then
    { opts with bat_stat := { opts.bat_stat with cutoff_voltage := (value.atoi % 65536).toNat } }
  else if name = "battery_divide_ratio" then
    { opts with bat_stat := { opts.bat_stat with ratio := value.atof } }
  else if name = "battery_input" then
    { opts with bat_stat := { opts.bat_stat with bat_in := value.text } }
  else if name = "sample_period" then
    { opts with sample_period_nsec := value.strtoul * 1000000 }
  else if name = "cpu_core_number" then
    { opts with n_cpus := value.atoi + 1 }
  else if name = "power_off_count_down" then
    { opts with pwoff_cd := value.atoi }
  else if name = "power_off_percent" then
    { opts with power_off_percent := (value.atoi % 256).toNat }
  else if name = "network_interfaces" then
    { opts with
      net := (value.tokens.take 8).map fun t =>
        { name := t, tx := 0, rx := 0, rx_rate := fin 0, tx_rate := fin 0 } }
  else
    opts

/-- The defaults `load_config` sets before parsing (lines 628-654). -/
def default_opts : app_data_t :=
  { bat_stat :=
      { bat_in := "", max_voltage := 4200, min_voltage := 3300, cutoff_voltage := 3000,
        ratio := fin 1, read_voltage := 0, percent := fin 0 },
    cpus := [],
    net := [],
    n_cpus := 2,
    sample_period_nsec := 300000000,
    pwoff_cd := 5,
    power_off_percent := 1 }

/-- The battery check of `load_config` (lines 663-672): 0 when the configuration
passes, -1 when it is rejected. -/
def battery_check (b : sys_bat_t) : Int :=
  if b.max_voltage < b.min_voltage ∨ b.max_voltage < b.cutoff_voltage ∨
      b.min_voltage < b.cutoff_voltage then -1 else 0

/-- The function `load_config` (lines 625-674): `file` is `none` when `ini_parse`
fails, else the name/value pairs it hands to `ini_handle`, in order. -/
def load_config (file : Option (List (String × ini_value))) : app_data_t × Int :=
  match file with
  | none => (default_opts, -1)
  | some entries =>
      let opts := entries.foldl (fun o e => ini_handle o e.1 e.2) default_opts
      (opts, battery_check opts.bat_stat)

/-! ## libm -/

/-- What is assumed of libm's `pow` at the two exponents `map` passes to it.  The
cube of a finite value is exact, as the arithmetic operations are.  The power
`9/2` of a non-negative finite value has no exact rational value in general: the
result is a non-negative finite value whose square is the ninth power to within
one part in `10 ^ 9`.  A `NaN` base gives `NaN` for every finite non-zero
exponent. -/
structure libm_pow (pow : FVal → FVal → FVal) : Prop where
  nan_base : ∀ y : ℚ, y ≠ 0 → pow nan (fin y) = nan
  cube : ∀ x : ℚ, pow (fin x) (fin 3) = fin (x ^ 3)
  pow_9_2 : ∀ x : ℚ, 0 ≤ x →
    ∃ p : ℚ, pow (fin x) (fin (9 / 2)) = fin p ∧ 0 ≤ p ∧
      x ^ 9 * (1 - 1 / 10 ^ 9) ≤ p ^ 2 ∧ p ^ 2 ≤ x ^ 9 * (1 + 1 / 10 ^ 9)

/-- Square root of a non-negative rational, rounded down to a relative precision
of `10 ^ (-10)`. -/
def sqrt_lower (x : ℚ) : ℚ :=
  (Nat.sqrt (x.num.toNat * x.den * 10 ^ 20) : ℚ) / ((x.den : ℚ) * 10 ^ 10)

/-- A computable function that meets `libm_pow`, to run the code on concrete
inputs.  It is `NaN` away from the two exponents `map` uses. -/
def pow_ref : FVal → FVal → FVal
  | FVal.fin x, FVal.fin y =>
      if y = 3 then fin (x ^ 3)
      else if y = 9 / 2 ∧ 0 ≤ x then fin (x ^ 4 * sqrt_lower x)
      else nan
  | _, _ => nan

/-! ## The readings the power guard sees -/

/-- The reading of a tick is valid: `voltage >= cutoff_voltage`. -/
def reading_valid (opts : app_data_t) : Bool :=
  FVal.le (FVal.ofNat opts.bat_stat.cutoff_voltage) (bat_volt opts.bat_stat)

/-- The battery is low: `percent <= power_off_percent`. -/
def reading_low (opts : app_data_t) : Bool :=
  FVal.le opts.bat_stat.percent (FVal.ofNat opts.power_off_percent)

/-- The battery has recovered: `percent > power_off_percent`. -/
def reading_high (opts : app_data_t) : Bool :=
  FVal.lt (FVal.ofNat opts.power_off_percent) opts.bat_stat.percent

/-- Every tick of the list, read in turn from the application data `opts`, gives a
reading that is valid and low. -/
def low_run (pow : FVal → FVal → FVal) : app_data_t → List bat_read → Bool
  | _, [] => true
  | opts, r :: rs =>
      reading_valid (read_voltage pow opts r).1 && reading_low (read_voltage pow opts r).1 &&
        low_run pow (read_voltage pow opts r).1 rs

/-! ## Sample configurations -/

/-- A battery input path, as the configuration file names it. -/
def battery_path : ini_value :=
  { text := "/sys/class/hwmon/hwmon2/device/in3_input", atoi := 0, atof := fin 0, strtoul := 0 }

/-- A configuration value that spells the decimal number `n`. -/
def ini_number (n : Nat) : ini_value :=
  { text := toString n, atoi := n, atof := FVal.ofNat n, strtoul := strtoul n }

/-- A configuration file with a battery input, `power_off_count_down = 3` and
`power_off_percent = 5`. -/
def guard_conf : List (String × ini_value) :=
  [("battery_input", battery_path), ("power_off_count_down", ini_number 3),
   ("power_off_percent", ini_number 5)]

/-- The application data `load_config` builds from `guard_conf`. -/
def guard_opts : app_data_t := (load_config (some guard_conf)).1

/-- A configuration file with a battery input and `power_off_count_down = 0`. -/
def zero_countdown_conf : List (String × ini_value) :=
  [("battery_input", battery_path), ("power_off_count_down", ini_number 0)]

/-- A configuration file with a battery input and
`battery_max_voltage = battery_min_voltage = 3300`. -/
def equal_voltage_conf : List (String × ini_value) :=
  [("battery_input", battery_path), ("battery_max_voltage", ini_number 3300),
   ("battery_min_voltage", ini_number 3300)]

/-- The configuration file of the end-to-end example: `battery_max_voltage = 4200`,
`battery_min_voltage = 3300`, `battery_divide_ratio = 1.0`. -/
def full_voltage_conf : List (String × ini_value) :=
  [("battery_input", battery_path), ("battery_max_voltage", ini_number 4200),
   ("battery_min_voltage", ini_number 3300),
   ("battery_divide_ratio", { text := "1.0", atoi := 1, atof := fin 1, strtoul := 1 })]

/-- Application data with one CPU line to read (`cpu_core_number = 0`) whose
core has the baseline `(800, 1000)` and 20 percent from the tick before. -/
def one_core_opts : app_data_t :=
  { default_opts with
    n_cpus := 1, cpus := [{ last_idle := 800, last_sum := 1000, percent := fin 20 }] }

/-- Application data with two CPU lines to read (the aggregate and one core),
with the baselines and the percentages a tick before left. -/
def two_core_opts : app_data_t :=
  { default_opts with
    n_cpus := 2,
    cpus := [{ last_idle := 800, last_sum := 1000, percent := fin 20 },
             { last_idle := 400, last_sum := 500, percent := fin 20 }] }

/-- A configuration file with one network interface and `sample_period = 300`
milliseconds. -/
def net_conf : List (String × ini_value) :=
  [("network_interfaces",
      { text := "eth0", atoi := 0, atof := fin 0, strtoul := 0, tokens := ["eth0"] }),
   ("sample_period", ini_number 300)]

/-- The application data `load_config` builds from `net_conf`, once a tick has
stored the counters `rx` and `tx` for its interface. -/
def net_opts (rx tx : Nat) : app_data_t :=
  { (load_config (some net_conf)).1 with
    net := [{ name := "eth0", tx := tx, rx := rx, rx_rate := fin 0, tx_rate := fin 0 }] }

/-! ## Facts about the reference `pow` -/

theorem sqrt_scaled_bounds (m M : ℕ) (hm : M * M ≤ m) :
    ((Nat.sqrt m : ℚ)) ^ 2 ≤ m ∧ (M : ℚ) * ((m : ℚ) - (Nat.sqrt m : ℚ) ^ 2) ≤ 2 * m := by
  have h1 : Nat.sqrt m * Nat.sqrt m ≤ m := Nat.sqrt_le m
  have h2 : m < (Nat.sqrt m + 1) * (Nat.sqrt m + 1) := Nat.lt_succ_sqrt m
  have h3 : M ≤ Nat.sqrt m := Nat.le_sqrt.2 hm
  have q1 : (Nat.sqrt m : ℚ) * (Nat.sqrt m : ℚ) ≤ (m : ℚ) := by exact_mod_cast h1
  have q2 : (m : ℚ) + 1 ≤ ((Nat.sqrt m : ℚ) + 1) * ((Nat.sqrt m : ℚ) + 1) := by
    exact_mod_cast h2
  have q3 : (M : ℚ) ≤ (Nat.sqrt m : ℚ) := by exact_mod_cast h3
  have q0 : (0 : ℚ) ≤ (M : ℚ) := Nat.cast_nonneg M
  have q4 : (0 : ℚ) ≤ (Nat.sqrt m : ℚ) := Nat.cast_nonneg _
  refine ⟨by nlinarith, ?_⟩
  have q5 : (m : ℚ) - (Nat.sqrt m : ℚ) ^ 2 ≤ 2 * (Nat.sqrt m : ℚ) := by nlinarith
  have q6 : (M : ℚ) * (2 * (Nat.sqrt m : ℚ)) ≤ 2 * (m : ℚ) := by nlinarith
  have q7 : (M : ℚ) * ((m : ℚ) - (Nat.sqrt m : ℚ) ^ 2) ≤ (M : ℚ) * (2 * (Nat.sqrt m : ℚ)) :=
    mul_le_mul_of_nonneg_left q5 q0
  linarith

theorem sqrt_quotient_bounds (n d : ℕ) (hd : 0 < d) :
    0 ≤ (Nat.sqrt (n * d * 10 ^ 20) : ℚ) / ((d : ℚ) * 10 ^ 10) ∧
    ((n : ℚ) / (d : ℚ)) * (1 - 1 / 10 ^ 9) ≤
      ((Nat.sqrt (n * d * 10 ^ 20) : ℚ) / ((d : ℚ) * 10 ^ 10)) ^ 2 ∧
    ((Nat.sqrt (n * d * 10 ^ 20) : ℚ) / ((d : ℚ) * 10 ^ 10)) ^ 2 ≤ (n : ℚ) / (d : ℚ) := by
  have hdq : (0 : ℚ) < (d : ℚ) := by exact_mod_cast hd
  have hxm : (n : ℚ) / (d : ℚ) = ((n * d * 10 ^ 20 : ℕ) : ℚ) / ((d : ℚ) * 10 ^ 10) ^ 2 := by
    push_cast; field_simp; ring
  have hm0 : (0 : ℚ) ≤ ((n * d * 10 ^ 20 : ℕ) : ℚ) := Nat.cast_nonneg _
  obtain ⟨ha, -⟩ := sqrt_scaled_bounds (n * d * 10 ^ 20) 0 (Nat.zero_le _)
  refine ⟨by positivity, ?_, ?_⟩
  · rcases Nat.eq_zero_or_pos n with h0 | hpos
    · subst h0; simp
    · have hm : 10 ^ 10 * 10 ^ 10 ≤ n * d * 10 ^ 20 := by
        have h1 : 1 ≤ n * d := Nat.mul_pos hpos hd
        have e : (10 : ℕ) ^ 10 * 10 ^ 10 = 1 * 10 ^ 20 := by rw [← pow_add, one_mul]
        rw [e]
        exact Nat.mul_le_mul_right _ h1
      obtain ⟨-, hb⟩ := sqrt_scaled_bounds (n * d * 10 ^ 20) (10 ^ 10) hm
      have hb2 : ((10 ^ 10 : ℕ) : ℚ) = 10 ^ 10 := by push_cast; rfl
      rw [hb2] at hb
      rw [div_pow, hxm, ← mul_div_right_comm]
      apply div_le_div_of_nonneg_right _ (by positivity)
      generalize ((n * d * 10 ^ 20 : ℕ) : ℚ) = m at hb hm0 ha
      generalize ((Nat.sqrt (n * d * 10 ^ 20) : ℕ) : ℚ) ^ 2 = r2 at hb ha
      have e9 : (1 : ℚ) / 10 ^ 9 = 10 * (1 / 10 ^ 10) := by norm_num
      have hb3 : m - r2 ≤ 2 * m * (1 / 10 ^ 10) := by
        have h10 : (0 : ℚ) < 10 ^ 10 := by positivity
        rw [mul_one_div, le_div_iff₀ h10]
        linarith
      rw [e9]
      nlinarith
  · rw [div_pow, hxm]
    exact div_le_div_of_nonneg_right ha (by positivity)

theorem sqrt_lower_bounds (x : ℚ) (hx : 0 ≤ x) :
    0 ≤ sqrt_lower x ∧ x * (1 - 1 / 10 ^ 9) ≤ sqrt_lower x ^ 2 ∧ sqrt_lower x ^ 2 ≤ x := by
  have hn : (0 : ℤ) ≤ x.num := Rat.num_nonneg.2 hx
  have hxe : ((x.num.toNat : ℕ) : ℚ) / (x.den : ℚ) = x := by
    have hc : ((x.num.toNat : ℕ) : ℚ) = (x.num : ℚ) := by
      have : ((x.num.toNat : ℕ) : ℤ) = x.num := Int.toNat_of_nonneg hn
      exact_mod_cast this
    rw [hc]; exact Rat.num_div_den x
  have h := sqrt_quotient_bounds x.num.toNat x.den x.den_pos
  rw [hxe] at h
  exact h

theorem pow_ref_libm : libm_pow pow_ref := by
  constructor
  · intro y _
    rfl
  · intro x
    simp [pow_ref]
  · intro x hx
    obtain ⟨h0, hlo, hhi⟩ := sqrt_lower_bounds x hx
    refine ⟨x ^ 4 * sqrt_lower x, ?_, by positivity, ?_, ?_⟩
    · have h3 : ¬ ((9 / 2 : ℚ) = 3) := by norm_num
      simp [pow_ref, h3, hx]
    · have h8 : (0 : ℚ) ≤ x ^ 8 := by positivity
      have := mul_le_mul_of_nonneg_left hlo h8
      calc x ^ 9 * (1 - 1 / 10 ^ 9) = x ^ 8 * (x * (1 - 1 / 10 ^ 9)) := by ring
        _ ≤ x ^ 8 * sqrt_lower x ^ 2 := this
        _ = (x ^ 4 * sqrt_lower x) ^ 2 := by ring
    · have h8 : (0 : ℚ) ≤ x ^ 8 := by positivity
      have h9 : (0 : ℚ) ≤ x ^ 9 := by positivity
      have := mul_le_mul_of_nonneg_left hhi h8
      calc (x ^ 4 * sqrt_lower x) ^ 2 = x ^ 8 * sqrt_lower x ^ 2 := by ring
        _ ≤ x ^ 8 * x := this
        _ = x ^ 9 := by ring
        _ ≤ x ^ 9 * (1 + 1 / 10 ^ 9) := by nlinarith

/-! ## Comparisons -/

theorem FVal.lt_eq_false_of_le {a b : FVal} (h : FVal.le a b = true) : FVal.lt b a = false := by
  cases a <;> cases b <;> simp_all [FVal.le, FVal.lt]

theorem FVal.le_eq_false_of_lt {a b : FVal} (h : FVal.lt a b = true) : FVal.le b a = false := by
  cases a <;> cases b <;> simp_all [FVal.le, FVal.lt]

/-! ## Frame of the battery reader -/

theorem map_frame (pow : FVal → FVal → FVal) (o : app_data_t) :
    (map pow o).pwoff_cd = o.pwoff_cd ∧ (map pow o).power_off_percent = o.power_off_percent ∧
    (map pow o).bat_stat.bat_in = o.bat_stat.bat_in ∧
    (map pow o).bat_stat.cutoff_voltage = o.bat_stat.cutoff_voltage ∧
    (map pow o).bat_stat.read_voltage = o.bat_stat.read_voltage ∧
    (map pow o).bat_stat.ratio = o.bat_stat.ratio := by
  unfold map
  dsimp only
  split <;> simp

theorem read_voltage_frame (pow : FVal → FVal → FVal) (o : app_data_t) (r : bat_read) :
    (read_voltage pow o r).1.pwoff_cd = o.pwoff_cd ∧
    (read_voltage pow o r).1.power_off_percent = o.power_off_percent ∧
    (read_voltage pow o r).1.bat_stat.bat_in = o.bat_stat.bat_in ∧
    (read_voltage pow o r).1.bat_stat.cutoff_voltage = o.bat_stat.cutoff_voltage := by
  unfold read_voltage
  split
  · simp
  · cases r with
    | open_failed => simp
    | read_failed => simp
    | value n =>
        obtain ⟨h1, h2, h3, h4, -, -⟩ := map_frame pow
          { o with bat_stat := { o.bat_stat with read_voltage := (n % 65536).toNat } }
        exact ⟨h1, h2, h3, h4⟩

/-! ## Power guard -/

theorem power_guard_low (o : app_data_t) (c : Int)
    (hv : reading_valid o = true) (hl : reading_low o = true) :
    power_guard o c = (c - 1, decide (c - 1 ≤ 0)) := by
  have h1 := FVal.lt_eq_false_of_le hv
  unfold reading_low at hl
  unfold power_guard
  simp only [h1, hl, if_true, Bool.false_eq_true, if_false]
  by_cases hc : c - 1 ≤ 0 <;> simp [hc]

theorem power_guard_high (o : app_data_t) (c : Int)
    (hv : reading_valid o = true) (hh : reading_high o = true) :
    power_guard o c = (o.pwoff_cd, decide (o.pwoff_cd ≤ 0)) := by
  have h1 := FVal.lt_eq_false_of_le hv
  have h2 := FVal.le_eq_false_of_lt hh
  unfold power_guard
  simp only [h1, h2, if_true, Bool.false_eq_true, if_false]
  by_cases hc : o.pwoff_cd ≤ 0 <;> simp [hc]

theorem main_iter_low (pow : FVal → FVal → FVal) (s : main_state) (r : bat_read)
    (hin : s.opts.bat_stat.bat_in ≠ "")
    (hv : reading_valid (read_voltage pow s.opts r).1 = true)
    (hl : reading_low (read_voltage pow s.opts r).1 = true) :
    main_iter pow s r =
      if s.count_down - 1 ≤ 0 then
        { s with opts := (read_voltage pow s.opts r).1, count_down := s.count_down - 1,
                 poweroff_calls := s.poweroff_calls + 1, returned := true }
      else
        { s with opts := (read_voltage pow s.opts r).1, count_down := s.count_down - 1,
                 samples := s.samples + 1 } := by
  unfold main_iter
  simp only [hin, ne_eq, not_false_eq_true, if_true, power_guard_low _ _ hv hl]
  by_cases hc : s.count_down - 1 ≤ 0 <;> simp [hc]

theorem main_iter_high (pow : FVal → FVal → FVal) (s : main_state) (r : bat_read)
    (hin : s.opts.bat_stat.bat_in ≠ "")
    (hv : reading_valid (read_voltage pow s.opts r).1 = true)
    (hh : reading_high (read_voltage pow s.opts r).1 = true) :
    main_iter pow s r =
      if s.opts.pwoff_cd ≤ 0 then
        { s with opts := (read_voltage pow s.opts r).1, count_down := s.opts.pwoff_cd,
                 poweroff_calls := s.poweroff_calls + 1, returned := true }
      else
        { s with opts := (read_voltage pow s.opts r).1, count_down := s.opts.pwoff_cd,
                 samples := s.samples + 1 } := by
  unfold main_iter
  simp only [hin, ne_eq, not_false_eq_true, if_true, power_guard_high _ _ hv hh,
    (read_voltage_frame pow s.opts r).1]
  by_cases hc : s.opts.pwoff_cd ≤ 0 <;> simp [hc]

theorem main_loop_returned (pow : FVal → FVal → FVal) (s : main_state) (ticks : List bat_read)
    (h : s.returned = true) : main_loop pow s ticks = s := by
  cases ticks <;> simp [main_loop, h]

theorem main_loop_append (pow : FVal → FVal → FVal) (a b : List bat_read) (s : main_state) :
    main_loop pow s (a ++ b) = main_loop pow (main_loop pow s a) b := by
  induction a generalizing s with
  | nil => simp [main_loop]
  | cons r a ih =>
      by_cases h : s.returned = true
      · simp [main_loop, h, main_loop_returned pow s b h]
      · simp [main_loop, h, ih]

theorem low_run_take (pow : FVal → FVal → FVal) (ticks : List bat_read) (o : app_data_t)
    (k : Nat) (h : low_run pow o ticks = true) : low_run pow o (ticks.take k) = true := by
  induction ticks generalizing o k with
  | nil => simp [low_run]
  | cons r rs ih =>
      cases k with
      | zero => simp [low_run]
      | succ k =>
          simp only [low_run, Bool.and_eq_true] at h
          simp only [List.take_succ_cons, low_run, Bool.and_eq_true]
          exact ⟨h.1, ih _ k h.2⟩

theorem main_loop_counting (pow : FVal → FVal → FVal) (ticks : List bat_read) (s : main_state)
    (hret : s.returned = false) (hin : s.opts.bat_stat.bat_in ≠ "")
    (hlow : low_run pow s.opts ticks = true) (hlen : (ticks.length : Int) < s.count_down) :
    (main_loop pow s ticks).count_down = s.count_down - ticks.length ∧
    (main_loop pow s ticks).poweroff_calls = s.poweroff_calls ∧
    (main_loop pow s ticks).returned = false ∧
    (main_loop pow s ticks).samples = s.samples + ticks.length := by
  induction ticks generalizing s with
  | nil => simp [main_loop, hret]
  | cons r rs ih =>
      simp only [low_run, Bool.and_eq_true] at hlow
      obtain ⟨⟨hv, hl⟩, hrest⟩ := hlow
      simp only [List.length_cons, Nat.cast_add, Nat.cast_one] at hlen
      have hc : ¬ (s.count_down - 1 ≤ 0) := by omega
      have hit := main_iter_low pow s r hin hv hl
      rw [if_neg hc] at hit
      have hin2 : (main_iter pow s r).opts.bat_stat.bat_in ≠ "" := by
        rw [hit]; simpa [(read_voltage_frame pow s.opts r).2.2.1] using hin
      have hlow2 : low_run pow (main_iter pow s r).opts rs = true := by
        rw [hit]; exact hrest
      have hret2 : (main_iter pow s r).returned = false := by rw [hit]; exact hret
      have hlen2 : (rs.length : Int) < (main_iter pow s r).count_down := by
        rw [hit]; simp only; omega
      obtain ⟨h1, h2, h3, h4⟩ := ih (main_iter pow s r) hret2 hin2 hlow2 hlen2
      simp only [main_loop, hret, Bool.false_eq_true, if_false, List.length_cons,
        Nat.cast_add, Nat.cast_one]
      rw [h1, h2, h3, h4, hit]
      simp only
      refine ⟨by omega, trivial, trivial, by omega⟩

theorem main_loop_exhaust (pow : FVal → FVal → FVal) (ticks : List bat_read) (s : main_state)
    (hret : s.returned = false) (hin : s.opts.bat_stat.bat_in ≠ "")
    (hlow : low_run pow s.opts ticks = true) (hlen : (ticks.length : Int) = s.count_down)
    (hpos : 1 ≤ s.count_down) :
    (main_loop pow s ticks).count_down = 0 ∧
    (main_loop pow s ticks).poweroff_calls = s.poweroff_calls + 1 ∧
    (main_loop pow s ticks).returned = true := by
  induction ticks generalizing s with
  | nil => simp at hlen; omega
  | cons r rs ih =>
      simp only [low_run, Bool.and_eq_true] at hlow
      obtain ⟨⟨hv, hl⟩, hrest⟩ := hlow
      simp only [List.length_cons, Nat.cast_add, Nat.cast_one] at hlen
      have hit := main_iter_low pow s r hin hv hl
      simp only [main_loop, hret, Bool.false_eq_true, if_false]
      by_cases hc : s.count_down - 1 ≤ 0
      · rw [if_pos hc] at hit
        have hr : (main_iter pow s r).returned = true := by rw [hit]
        rw [main_loop_returned pow _ rs hr, hit]
        simp only
        refine ⟨by omega, trivial, trivial⟩
      · rw [if_neg hc] at hit
        have hin2 : (main_iter pow s r).opts.bat_stat.bat_in ≠ "" := by
          rw [hit]; simpa [(read_voltage_frame pow s.opts r).2.2.1] using hin
        have hlow2 : low_run pow (main_iter pow s r).opts rs = true := by
          rw [hit]; exact hrest
        have hret2 : (main_iter pow s r).returned = false := by rw [hit]; exact hret
        have hlen2 : (rs.length : Int) = (main_iter pow s r).count_down := by
          rw [hit]; simp only; omega
        have hpos2 : 1 ≤ (main_iter pow s r).count_down := by
          rw [hit]; simp only; omega
        obtain ⟨h1, h2, h3⟩ := ih (main_iter pow s r) hret2 hin2 hlow2 hlen2 hpos2
        rw [h1, h2, h3, hit]
        exact ⟨rfl, rfl, rfl⟩

/-! ## The battery model at full voltage -/

theorem pow_9_2_full (pow : FVal → FVal → FVal) (h : libm_pow pow) :
    ∃ p : ℚ, pow (fin (133 / 100)) (fin (9 / 2)) = fin p ∧ 36085 / 10000 ≤ p ∧
      p ≤ 36086 / 10000 := by
  obtain ⟨p, hp, h0, hlo, hhi⟩ := h.pow_9_2 (133 / 100) (by norm_num)
  refine ⟨p, hp, ?_, ?_⟩
  · by_contra hc
    push_neg at hc
    have : p ^ 2 < (36085 / 10000) ^ 2 := by nlinarith
    have h2 : ((133 : ℚ) / 100) ^ 9 * (1 - 1 / 10 ^ 9) < (36085 / 10000) ^ 2 :=
      lt_of_le_of_lt hlo this
    norm_num at h2
  · by_contra hc
    push_neg at hc
    have : (36086 / 10000 : ℚ) ^ 2 < p ^ 2 := by nlinarith
    have h2 : (36086 / 10000 : ℚ) ^ 2 < ((133 : ℚ) / 100) ^ 9 * (1 + 1 / 10 ^ 9) :=
      lt_of_lt_of_le this hhi
    norm_num at h2

theorem map_full_percent (pow : FVal → FVal → FVal) (h : libm_pow pow) (opt : app_data_t)
    (hmax : opt.bat_stat.max_voltage = 4200) (hmin : opt.bat_stat.min_voltage = 3300)
    (hratio : opt.bat_stat.ratio = fin 1) (hraw : opt.bat_stat.read_voltage = 4200) :
    ∃ q : ℚ, (map pow opt).bat_stat.percent = fin q ∧ 99968 / 1000 < q ∧ q < 999682 / 10000 := by
  obtain ⟨p, hp, hplo, hphi⟩ := pow_9_2_full pow h
  have hx : ((133 : ℚ) / 100 * (4200 - 3300)) / (4200 - 3300) = 133 / 100 := by norm_num
  have hpos : (0 : ℚ) < (1 + p) ^ 3 := by positivity
  have hlo3 : (46085 / 10000 : ℚ) ^ 3 ≤ (1 + p) ^ 3 :=
    pow_le_pow_left₀ (by norm_num) (by linarith) 3
  have hhi3 : (1 + p) ^ 3 ≤ (46086 / 10000 : ℚ) ^ 3 :=
    pow_le_pow_left₀ (by linarith) (by linarith) 3
  have hq1 : (99968 / 1000 : ℚ) < 101 - 101 / (1 + p) ^ 3 := by
    have : (101 : ℚ) / (1 + p) ^ 3 < 1032 / 1000 := by
      rw [div_lt_iff₀ hpos]
      have : (101 : ℚ) < 1032 / 1000 * (46085 / 10000) ^ 3 := by norm_num
      nlinarith
    linarith
  have hq2 : (101 : ℚ) - 101 / (1 + p) ^ 3 < 999682 / 10000 := by
    have : (10318 / 10000 : ℚ) < 101 / (1 + p) ^ 3 := by
      rw [lt_div_iff₀ hpos]
      have : (10318 / 10000 : ℚ) * (46086 / 10000) ^ 3 < 101 := by norm_num
      nlinarith
    linarith
  refine ⟨101 - 101 / (1 + p) ^ 3, ?_, hq1, hq2⟩
  have hne : ¬ ((1 + p) ^ 3 = 0) := ne_of_gt hpos
  have hnlt : ¬ ((100 : ℚ) < 101 - 101 / (1 + p) ^ 3) := by
    have : (999682 / 10000 : ℚ) < 100 := by norm_num
    linarith
  unfold map bat_volt
  simp only [hmax, hmin, hratio, hraw, FVal.ofNat, FVal.ofInt, FVal.mul, FVal.lt, FVal.sub,
    FVal.neg, FVal.add, FVal.div]
  norm_num
  simp only [hp, h.cube, FVal.add, FVal.div, FVal.neg, FVal.lt, hne, if_false]
  simp only [sub_eq_add_neg]
  split
  · rename_i hc
    simp only [decide_eq_true_eq] at hc
    exact absurd (by linarith) hnlt
  · rfl

/-! ## Evaluation of the sample configurations -/

theorem guard_opts_eq :
    guard_opts =
      { default_opts with
        bat_stat := { default_opts.bat_stat with bat_in := battery_path.text },
        pwoff_cd := 3, power_off_percent := 5 } := by
  simp [guard_opts, guard_conf, load_config, ini_handle, ini_number, battery_path, default_opts]

theorem guard_read_below_min (pow : FVal → FVal → FVal) (o : app_data_t) (n : Nat)
    (hin : o.bat_stat.bat_in ≠ "") (hratio : o.bat_stat.ratio = fin 1)
    (hn : n < 65536) (hmin : n < o.bat_stat.min_voltage) :
    (read_voltage pow o (bat_read.value n)).1 =
      { o with bat_stat := { o.bat_stat with read_voltage := n, percent := fin 0 } } := by
  have hmod : ((n : Int) % 65536).toNat = n := by omega
  have hlt : ((n : ℚ) * 1 < (o.bat_stat.min_voltage : ℚ)) := by
    rw [mul_one]; exact_mod_cast hmin
  simp [read_voltage, hin, map, bat_volt, hratio, hmod, FVal.ofNat, FVal.mul, FVal.lt, hlt]
  intro h
  omega

theorem map_eq_percent (pow : FVal → FVal → FVal) (o : app_data_t) :
    map pow o = { o with bat_stat := { o.bat_stat with percent := (map pow o).bat_stat.percent } } := by
  unfold map
  dsimp only
  split <;> rfl

theorem guard_read_full (pow : FVal → FVal → FVal) (h : libm_pow pow) (o : app_data_t)
    (hin : o.bat_stat.bat_in ≠ "") (hmax : o.bat_stat.max_voltage = 4200)
    (hmin : o.bat_stat.min_voltage = 3300) (hratio : o.bat_stat.ratio = fin 1) :
    ∃ q : ℚ, 99968 / 1000 < q ∧ q < 999682 / 10000 ∧
      (read_voltage pow o (bat_read.value 4200)).1 =
        { o with bat_stat := { o.bat_stat with read_voltage := 4200, percent := fin q } } := by
  obtain ⟨q, hq, h1, h2⟩ := map_full_percent pow h
    { o with bat_stat := { o.bat_stat with read_voltage := 4200 } } hmax hmin hratio rfl
  refine ⟨q, h1, h2, ?_⟩
  have hmod : ((4200 : Int) % 65536).toNat = 4200 := by decide
  simp only [read_voltage, hin, if_false, hmod]
  rw [map_eq_percent, hq]

theorem guard_full_reading (o : app_data_t) (q : ℚ) (hq : 99968 / 1000 < q)
    (hcut : o.bat_stat.cutoff_voltage ≤ 4200) (hthr : o.power_off_percent ≤ 99)
    (hratio : o.bat_stat.ratio = fin 1) :
    reading_valid
        { o with bat_stat := { o.bat_stat with read_voltage := 4200, percent := fin q } } = true ∧
    reading_high
        { o with bat_stat := { o.bat_stat with read_voltage := 4200, percent := fin q } } = true := by
  have h1 : (o.bat_stat.cutoff_voltage : ℚ) ≤ 4200 := by exact_mod_cast hcut
  have h2 : (o.power_off_percent : ℚ) ≤ 99 := by exact_mod_cast hthr
  have h3 : (o.power_off_percent : ℚ) < q := by linarith
  simp [reading_valid, reading_high, bat_volt, hratio, FVal.ofNat, FVal.mul, FVal.le, FVal.lt,
    h1, h3]

theorem main_iter_below_min (pow : FVal → FVal → FVal) (s : main_state) (n : Nat)
    (hin : s.opts.bat_stat.bat_in ≠ "") (hratio : s.opts.bat_stat.ratio = fin 1)
    (hn : n < 65536) (hmin : n < s.opts.bat_stat.min_voltage)
    (hcut : s.opts.bat_stat.cutoff_voltage ≤ n) (hc : 1 < s.count_down) :
    main_iter pow s (bat_read.value n) =
      { s with
        opts := { s.opts with bat_stat := { s.opts.bat_stat with read_voltage := n, percent := fin 0 } },
        count_down := s.count_down - 1, samples := s.samples + 1 } := by
  have e := guard_read_below_min pow s.opts n hin hratio hn hmin
  have hcq : (s.opts.bat_stat.cutoff_voltage : ℚ) ≤ (n : ℚ) := by exact_mod_cast hcut
  have hv : reading_valid (read_voltage pow s.opts (bat_read.value n)).1 = true := by
    rw [e]; simp [reading_valid, bat_volt, hratio, FVal.ofNat, FVal.mul, FVal.le, hcq]
  have hl : reading_low (read_voltage pow s.opts (bat_read.value n)).1 = true := by
    rw [e]; simp [reading_low, FVal.ofNat, FVal.le]
  rw [main_iter_low pow s _ hin hv hl, if_neg (by omega), e]

/-! ## Claims on the power guard -/

/-- C1. Power guard countdown: with a battery input configured and a countdown
length `N = pwoff_cd >= 1`, `N` consecutive ticks whose readings are valid and low,
run from the state in which `main` enters its loop, leave the countdown at `N - k`
after the first `k < N` ticks with no call of `poweroff` and `main` still looping;
the `N`-th tick calls `poweroff` once and `main` returns, so that whatever ticks
would follow are not executed. -/
theorem power_guard_countdown (pow : FVal → FVal → FVal) (opts : app_data_t)
    (ticks : List bat_read)
    (hin : opts.bat_stat.bat_in ≠ "")
    (hN : 1 ≤ opts.pwoff_cd)
    (hlen : (ticks.length : Int) = opts.pwoff_cd)
    (hlow : low_run pow (main_init opts).opts ticks = true) :
    (∀ k : Nat, k < ticks.length →
      (main_loop pow (main_init opts) (ticks.take k)).count_down = opts.pwoff_cd - k ∧
      (main_loop pow (main_init opts) (ticks.take k)).poweroff_calls = 0 ∧
      (main_loop pow (main_init opts) (ticks.take k)).returned = false) ∧
    (main_loop pow (main_init opts) ticks).poweroff_calls = 1 ∧
    (main_loop pow (main_init opts) ticks).returned = true ∧
    (∀ more : List bat_read,
      main_loop pow (main_init opts) (ticks ++ more) = main_loop pow (main_init opts) ticks) := by
  have hin0 : (main_init opts).opts.bat_stat.bat_in ≠ "" := hin
  have hex := main_loop_exhaust pow ticks (main_init opts) rfl hin0 hlow hlen hN
  refine ⟨?_, hex.2.1, hex.2.2, ?_⟩
  · intro k hk
    have hlk : (ticks.take k).length = k := by
      rw [List.length_take]; omega
    have hlt : (((ticks.take k).length : Nat) : Int) < (main_init opts).count_down := by
      rw [hlk]
      show (k : Int) < opts.pwoff_cd
      omega
    obtain ⟨h1, h2, h3, -⟩ := main_loop_counting pow (ticks.take k) (main_init opts) rfl hin0
      (low_run_take pow ticks _ k hlow) hlt
    rw [hlk] at h1
    exact ⟨h1, h2, h3⟩
  · intro more
    rw [main_loop_append, main_loop_returned pow _ more hex.2.2]

/-- C1, witness: threshold 5, countdown length 3 and three ticks reading 3100 mV
(above the cutoff 3000, below the floor 3300, so 0 percent): the countdown goes
3, 2, 1 and the third tick powers off. -/
theorem power_guard_countdown_witness :
    low_run pow_ref (main_init guard_opts).opts
      [bat_read.value 3100, bat_read.value 3100, bat_read.value 3100] = true ∧
    (main_loop pow_ref (main_init guard_opts) [bat_read.value 3100]).count_down = 2 ∧
    (main_loop pow_ref (main_init guard_opts)
      [bat_read.value 3100, bat_read.value 3100]).count_down = 1 ∧
    (main_loop pow_ref (main_init guard_opts)
      [bat_read.value 3100, bat_read.value 3100, bat_read.value 3100]).poweroff_calls = 1 := by
  have e : ∀ o : app_data_t, o.bat_stat.bat_in ≠ "" → o.bat_stat.ratio = fin 1 →
      3100 < o.bat_stat.min_voltage →
      (read_voltage pow_ref o (bat_read.value 3100)).1 =
      { o with bat_stat := { o.bat_stat with read_voltage := 3100, percent := fin 0 } } :=
    fun o h1 h2 h3 => guard_read_below_min pow_ref o 3100 h1 h2 (by norm_num) h3
  have hlow : low_run pow_ref (main_init guard_opts).opts
      [bat_read.value 3100, bat_read.value 3100, bat_read.value 3100] = true := by
    simp [low_run, main_init, guard_opts_eq, default_opts, battery_path, e, reading_valid,
      reading_low, bat_volt, FVal.ofNat, FVal.mul, FVal.le]
    norm_num
  have h := power_guard_countdown pow_ref guard_opts
    [bat_read.value 3100, bat_read.value 3100, bat_read.value 3100]
    (by simp [guard_opts_eq, battery_path]) (by simp [guard_opts_eq])
    (by simp [guard_opts_eq]) hlow
  have hcd : guard_opts.pwoff_cd = 3 := by simp [guard_opts_eq]
  have h1 := (h.1 1 (by simp)).1
  have h2 := (h.1 2 (by simp)).1
  rw [hcd] at h1 h2
  refine ⟨hlow, ?_, ?_, h.2.1⟩
  · simpa using h1
  · simpa using h2

/-- C2. Power guard full reset: with a battery input configured, for every state
of `main` (whatever its countdown) and every tick whose reading is valid
(`voltage >= cutoff_voltage`) with `percent > power_off_percent`, the countdown
after the tick is the configured length `pwoff_cd`. -/
theorem power_guard_full_reset (pow : FVal → FVal → FVal) (s : main_state) (r : bat_read)
    (hin : s.opts.bat_stat.bat_in ≠ "")
    (hv : reading_valid (read_voltage pow s.opts r).1 = true)
    (hh : reading_high (read_voltage pow s.opts r).1 = true) :
    (main_iter pow s r).count_down = s.opts.pwoff_cd := by
  rw [main_iter_high pow s r hin hv hh]
  split <;> rfl

/-- C2, witness: threshold 5, countdown length 3; after two low ticks (3100 mV)
the countdown is 1, and a tick reading the full voltage 4200 mV sets it back
to 3. -/
theorem power_guard_full_reset_witness :
    (main_loop pow_ref (main_init guard_opts)
      [bat_read.value 3100, bat_read.value 3100]).count_down = 1 ∧
    (main_iter pow_ref
      (main_loop pow_ref (main_init guard_opts) [bat_read.value 3100, bat_read.value 3100])
      (bat_read.value 4200)).count_down = 3 := by
  have hs : main_loop pow_ref (main_init guard_opts)
      [bat_read.value 3100, bat_read.value 3100] =
      { opts := { guard_opts with
                  bat_stat := { guard_opts.bat_stat with read_voltage := 3100, percent := fin 0 },
                  cpus := init_cpus guard_opts.n_cpus },
        count_down := 1, poweroff_calls := 0, returned := false, samples := 2 } := by
    have h1 := main_iter_below_min pow_ref (main_init guard_opts) 3100
      (by simp [main_init, guard_opts_eq, battery_path])
      (by simp [main_init, guard_opts_eq, default_opts]) (by norm_num)
      (by simp [main_init, guard_opts_eq, default_opts])
      (by simp [main_init, guard_opts_eq, default_opts])
      (by simp [main_init, guard_opts_eq])
    simp only [Nat.cast_ofNat] at h1
    have h2 := main_iter_below_min pow_ref (main_iter pow_ref (main_init guard_opts)
      (bat_read.value 3100)) 3100
      (by rw [h1]; simp [main_init, guard_opts_eq, battery_path])
      (by rw [h1]; simp [main_init, guard_opts_eq, default_opts]) (by norm_num)
      (by rw [h1]; simp [main_init, guard_opts_eq, default_opts])
      (by rw [h1]; simp [main_init, guard_opts_eq, default_opts])
      (by rw [h1]; simp [main_init, guard_opts_eq])
    simp only [Nat.cast_ofNat] at h2
    have hr1 : (main_iter pow_ref (main_init guard_opts) (bat_read.value 3100)).returned = false := by
      rw [h1]; rfl
    have hr2 : (main_iter pow_ref (main_iter pow_ref (main_init guard_opts)
        (bat_read.value 3100)) (bat_read.value 3100)).returned = false := by
      rw [h2, h1]; rfl
    have hr0 : (main_init guard_opts).returned = false := rfl
    simp only [main_loop, hr0, hr1, Bool.false_eq_true, if_false]
    rw [h2, h1]
    simp [main_init, guard_opts_eq]
  rw [hs]
  obtain ⟨q, hq1, -, hq⟩ := guard_read_full pow_ref pow_ref_libm
    { guard_opts with
      bat_stat := { guard_opts.bat_stat with read_voltage := 3100, percent := fin 0 },
      cpus := init_cpus guard_opts.n_cpus }
    (by simp [guard_opts_eq, battery_path]) (by simp [guard_opts_eq, default_opts])
    (by simp [guard_opts_eq, default_opts]) (by simp [guard_opts_eq, default_opts])
  obtain ⟨hv, hh⟩ := guard_full_reading
    { guard_opts with
      bat_stat := { guard_opts.bat_stat with read_voltage := 3100, percent := fin 0 },
      cpus := init_cpus guard_opts.n_cpus } q hq1
    (by simp [guard_opts_eq, default_opts]) (by simp [guard_opts_eq])
    (by simp [guard_opts_eq, default_opts])
  refine ⟨rfl, ?_⟩
  have h := power_guard_full_reset pow_ref
    { opts := { guard_opts with
                bat_stat := { guard_opts.bat_stat with read_voltage := 3100, percent := fin 0 },
                cpus := init_cpus guard_opts.n_cpus },
      count_down := 1, poweroff_calls := 0, returned := false, samples := 2 }
    (bat_read.value 4200) (by simp [guard_opts_eq, battery_path])
    (by rw [hq]; exact hv) (by rw [hq]; exact hh)
  rw [h]
  simp [guard_opts_eq]

/-- C4, counterexample: `load_config` accepts a configuration file with
`power_off_count_down = 0`; on the first tick the battery reads the full voltage
4200 mV, a valid reading whose percentage is above the threshold, and `main`
calls `poweroff` and returns. -/
theorem power_guard_recovery_powers_off :
    (load_config (some zero_countdown_conf)).2 = 0 ∧
    reading_valid (read_voltage pow_ref
      (main_init (load_config (some zero_countdown_conf)).1).opts (bat_read.value 4200)).1 = true ∧
    reading_high (read_voltage pow_ref
      (main_init (load_config (some zero_countdown_conf)).1).opts (bat_read.value 4200)).1 = true ∧
    (main_iter pow_ref (main_init (load_config (some zero_countdown_conf)).1)
      (bat_read.value 4200)).poweroff_calls = 1 ∧
    (main_iter pow_ref (main_init (load_config (some zero_countdown_conf)).1)
      (bat_read.value 4200)).returned = true := by
  have hcfg : (load_config (some zero_countdown_conf)).1 =
      { default_opts with
        bat_stat := { default_opts.bat_stat with bat_in := battery_path.text },
        pwoff_cd := 0 } := by
    simp [zero_countdown_conf, load_config, ini_handle, ini_number, battery_path, default_opts]
  have hok : (load_config (some zero_countdown_conf)).2 = 0 := by
    simp [zero_countdown_conf, load_config, ini_handle, ini_number, battery_path, default_opts,
      battery_check]
  have hin : (main_init (load_config (some zero_countdown_conf)).1).opts.bat_stat.bat_in ≠ "" := by
    simp [main_init, hcfg, battery_path]
  obtain ⟨q, hq1, -, hq⟩ := guard_read_full pow_ref pow_ref_libm
    (main_init (load_config (some zero_countdown_conf)).1).opts hin
    (by simp [main_init, hcfg, default_opts]) (by simp [main_init, hcfg, default_opts])
    (by simp [main_init, hcfg, default_opts])
  obtain ⟨hv, hh⟩ := guard_full_reading
    (main_init (load_config (some zero_countdown_conf)).1).opts q hq1
    (by simp [main_init, hcfg, default_opts]) (by simp [main_init, hcfg, default_opts])
    (by simp [main_init, hcfg, default_opts])
  rw [← hq] at hv hh
  have hit := main_iter_high pow_ref _ _ hin hv hh
  have hcd : (main_init (load_config (some zero_countdown_conf)).1).opts.pwoff_cd ≤ 0 := by
    simp [main_init, hcfg]
  rw [if_pos hcd] at hit
  refine ⟨hok, hv, hh, ?_, ?_⟩
  · rw [hit]; rfl
  · rw [hit]

/-- C4, amended. No shutdown on a recovered reading when the countdown length is
at least 1: with a battery input configured and `pwoff_cd >= 1`, for every state
of `main` a tick whose reading is valid with `percent > power_off_percent` does
not call `poweroff`, leaves the countdown at its full length `pwoff_cd`, and
`main` goes on to its sampling pass without returning. -/
theorem power_guard_no_shutdown_on_recovery (pow : FVal → FVal → FVal) (s : main_state)
    (r : bat_read)
    (hin : s.opts.bat_stat.bat_in ≠ "")
    (hN : 1 ≤ s.opts.pwoff_cd)
    (hv : reading_valid (read_voltage pow s.opts r).1 = true)
    (hh : reading_high (read_voltage pow s.opts r).1 = true) :
    (main_iter pow s r).poweroff_calls = s.poweroff_calls ∧
    (main_iter pow s r).returned = s.returned ∧
    (main_iter pow s r).count_down = s.opts.pwoff_cd ∧
    (main_iter pow s r).samples = s.samples + 1 := by
  rw [main_iter_high pow s r hin hv hh, if_neg (by omega)]
  exact ⟨rfl, rfl, rfl, rfl⟩

/-- C4, witness: the sample configuration (countdown length 3, threshold 5) and a
first tick reading the full voltage 4200 mV. -/
theorem power_guard_no_shutdown_on_recovery_witness :
    reading_high (read_voltage pow_ref (main_init guard_opts).opts (bat_read.value 4200)).1
      = true ∧
    (main_iter pow_ref (main_init guard_opts) (bat_read.value 4200)).poweroff_calls = 0 ∧
    (main_iter pow_ref (main_init guard_opts) (bat_read.value 4200)).returned = false ∧
    (main_iter pow_ref (main_init guard_opts) (bat_read.value 4200)).count_down = 3 := by
  have hin : (main_init guard_opts).opts.bat_stat.bat_in ≠ "" := by
    simp [main_init, guard_opts_eq, battery_path]
  obtain ⟨q, hq1, -, hq⟩ := guard_read_full pow_ref pow_ref_libm
    (main_init guard_opts).opts hin
    (by simp [main_init, guard_opts_eq, default_opts])
    (by simp [main_init, guard_opts_eq, default_opts])
    (by simp [main_init, guard_opts_eq, default_opts])
  obtain ⟨hv, hh⟩ := guard_full_reading (main_init guard_opts).opts q hq1
    (by simp [main_init, guard_opts_eq, default_opts])
    (by simp [main_init, guard_opts_eq, default_opts])
    (by simp [main_init, guard_opts_eq, default_opts])
  rw [← hq] at hv hh
  have h := power_guard_no_shutdown_on_recovery pow_ref (main_init guard_opts)
    (bat_read.value 4200) hin (by simp [main_init, guard_opts_eq]) hv hh
  refine ⟨hh, h.1, h.2.1, ?_⟩
  rw [h.2.2.1]
  simp [main_init, guard_opts_eq]

/-! ## Claims on the configuration and the battery model -/

theorem battery_check_eq_zero_iff (b : sys_bat_t) :
    battery_check b = 0 ↔ b.min_voltage ≤ b.max_voltage ∧ b.cutoff_voltage ≤ b.min_voltage := by
  unfold battery_check
  split
  · rename_i h
    constructor
    · intro h0; simp at h0
    · intro h1; omega
  · rename_i h
    constructor
    · intro _; omega
    · intro _; rfl

/-- C5, the code at the failing input: `load_config` accepts (returns 0) a
configuration file with `battery_max_voltage = battery_min_voltage = 3300`, and with
it a reading of 3300 mV makes `map` divide zero by zero, so that the battery
percentage is `NaN`. -/
theorem load_config_accepts_equal_voltages :
    (load_config (some equal_voltage_conf)).2 = 0 ∧
    (load_config (some equal_voltage_conf)).1.bat_stat.max_voltage = 3300 ∧
    (load_config (some equal_voltage_conf)).1.bat_stat.min_voltage = 3300 ∧
    (read_voltage pow_ref (load_config (some equal_voltage_conf)).1
      (bat_read.value 3300)).1.bat_stat.percent = nan := by
  have hcfg : (load_config (some equal_voltage_conf)).1 =
      { default_opts with
        bat_stat := { default_opts.bat_stat with
                      bat_in := battery_path.text, max_voltage := 3300, min_voltage := 3300 } } := by
    simp [equal_voltage_conf, load_config, ini_handle, ini_number, battery_path, default_opts]
  refine ⟨?_, by rw [hcfg], by rw [hcfg], ?_⟩
  · simp [equal_voltage_conf, load_config, ini_handle, ini_number, battery_path, default_opts,
      battery_check]
  · rw [hcfg]
    simp [read_voltage, map, bat_volt, default_opts, battery_path, FVal.ofNat, FVal.ofInt,
      FVal.mul, FVal.lt, FVal.sub, FVal.neg, FVal.add, FVal.div, FVal.signedInf, pow_ref]

theorem pow_9_2_zero (pow : FVal → FVal → FVal) (h : libm_pow pow) :
    pow (fin 0) (fin (9 / 2)) = fin 0 := by
  obtain ⟨p, hp, _, _, hhi⟩ := h.pow_9_2 0 le_rfl
  have h0 : p ^ 2 ≤ 0 := by simpa using hhi
  have hp0 : p = 0 := by
    have := sq_nonneg p
    exact pow_eq_zero_iff (two_ne_zero) |>.1 (le_antisymm h0 this)
  rw [hp, hp0]

/-- C6. Battery model floor: for every configuration with
`max_voltage > min_voltage` and every raw reading and ratio whose voltage
`read_voltage * ratio` is at most `min_voltage`, `map` sets the percentage to
exactly 0 (by the early return below the floor, by the formula at the floor). -/
theorem map_floor (pow : FVal → FVal → FVal) (h : libm_pow pow) (opt : app_data_t)
    (hmm : opt.bat_stat.min_voltage < opt.bat_stat.max_voltage)
    (hle : FVal.le (bat_volt opt.bat_stat) (FVal.ofNat opt.bat_stat.min_voltage) = true) :
    (map pow opt).bat_stat.percent = fin 0 := by
  have hd : ¬ ((opt.bat_stat.max_voltage : ℚ) - (opt.bat_stat.min_voltage : ℚ) = 0) := by
    have : (opt.bat_stat.min_voltage : ℚ) < (opt.bat_stat.max_voltage : ℚ) := by
      exact_mod_cast hmm
    linarith
  unfold map
  dsimp only
  split
  · rfl
  · rename_i hlt
    generalize hv : bat_volt opt.bat_stat = v at hle hlt
    cases v with
    | nan => simp [FVal.le] at hle
    | pinf => simp [FVal.le, FVal.ofNat] at hle
    | ninf => simp [FVal.lt, FVal.ofNat] at hlt
    | fin q =>
        simp only [FVal.le, FVal.lt, FVal.ofNat, decide_eq_true_eq] at hle hlt
        have hq : q = (opt.bat_stat.min_voltage : ℚ) := le_antisymm hle (not_lt.1 hlt)
        subst hq
        have h100 : ¬ ((100 : ℚ) < 0) := by norm_num
        simp [FVal.ofNat, FVal.ofInt, FVal.sub, FVal.neg, FVal.add, FVal.mul, FVal.div, hd,
          pow_9_2_zero pow h, h.cube, FVal.lt, h100]

/-- C6, witness: the default battery configuration (floor 3300, full 4200) and a
raw reading of exactly 3300 with ratio 1. -/
theorem map_floor_witness :
    (map pow_ref { default_opts with
      bat_stat := { default_opts.bat_stat with read_voltage := 3300 } }).bat_stat.percent
      = fin 0 :=
  map_floor pow_ref pow_ref_libm
    { default_opts with bat_stat := { default_opts.bat_stat with read_voltage := 3300 } }
    (by simp [default_opts])
    (by simp [bat_volt, default_opts, FVal.ofNat, FVal.mul, FVal.le])

/-- C7, counterexample: with the configuration of the end-to-end example
(`battery_max_voltage = 4200`, `battery_min_voltage = 3300`,
`battery_divide_ratio = 1.0`) and the raw voltage 4200, the percentage that
`read_voltage` stores through `map`, and that is printed as `battery_percent`, is
not 100. -/
theorem full_voltage_percent_ne_100 :
    battery_percent
      (read_voltage pow_ref (load_config (some full_voltage_conf)).1 (bat_read.value 4200)).1
      ≠ fin 100 := by
  have hcfg : (load_config (some full_voltage_conf)).1 =
      { default_opts with
        bat_stat := { default_opts.bat_stat with bat_in := battery_path.text } } := by
    simp [full_voltage_conf, load_config, ini_handle, ini_number, battery_path, default_opts]
  obtain ⟨q, -, hq2, hq⟩ := guard_read_full pow_ref pow_ref_libm
    (load_config (some full_voltage_conf)).1
    (by simp [hcfg, battery_path]) (by simp [hcfg, default_opts])
    (by simp [hcfg, default_opts]) (by simp [hcfg, default_opts])
  rw [hq]
  intro hc
  simp only [battery_percent, FVal.fin.injEq] at hc
  rw [hc] at hq2
  norm_num at hq2

/-- C7, amended. Battery model at full voltage: with `max_voltage = 4200`,
`min_voltage = 3300`, ratio 1 and a battery input configured, a raw voltage of
4200 gives, for every `pow` that meets `libm_pow`, a finite percentage strictly
between 99.968 and 99.9682: the value of the formula, which the clamp at 100
leaves alone, and which is what is printed as `battery_percent`. -/
theorem full_voltage_percent (pow : FVal → FVal → FVal) (h : libm_pow pow) (opts : app_data_t)
    (hin : opts.bat_stat.bat_in ≠ "")
    (hmax : opts.bat_stat.max_voltage = 4200) (hmin : opts.bat_stat.min_voltage = 3300)
    (hratio : opts.bat_stat.ratio = fin 1) :
    ∃ q : ℚ, battery_percent (read_voltage pow opts (bat_read.value 4200)).1 = fin q ∧
      99968 / 1000 < q ∧ q < 999682 / 10000 := by
  obtain ⟨q, hq1, hq2, hq⟩ := guard_read_full pow h opts hin hmax hmin hratio
  exact ⟨q, by rw [hq]; rfl, hq1, hq2⟩

/-- C7, witness: the configuration file of the end-to-end example, loaded by
`load_config`, and the reference `pow`. -/
theorem full_voltage_percent_witness :
    ∃ q : ℚ, battery_percent (read_voltage pow_ref (load_config (some full_voltage_conf)).1
        (bat_read.value 4200)).1 = fin q ∧
      99968 / 1000 < q ∧ q < 999682 / 10000 :=
  full_voltage_percent pow_ref pow_ref_libm (load_config (some full_voltage_conf)).1
    (by simp [full_voltage_conf, load_config, ini_handle, ini_number, battery_path, default_opts])
    (by simp [full_voltage_conf, load_config, ini_handle, ini_number, battery_path, default_opts])
    (by simp [full_voltage_conf, load_config, ini_handle, ini_number, battery_path, default_opts])
    (by simp [full_voltage_conf, load_config, ini_handle, ini_number, battery_path, default_opts])

/-! ## Claims on the CPU derivation -/

theorem cpu_fields_sum_lt (idle0 : Nat) (fields : List Nat) :
    (cpu_fields idle0 fields).2 < 2 ^ 64 :=
  Nat.mod_lt _ (by norm_num)

theorem cpu_fields_idle_lt (idle0 : Nat) (fields : List Nat) (h0 : idle0 < 2 ^ 64) :
    (cpu_fields idle0 fields).1 < 2 ^ 64 := by
  unfold cpu_fields
  dsimp only
  split
  · unfold strtoul ULONG_MAX
    omega
  · exact h0

theorem ulong_sub_of_le (a b : Nat) (hba : b ≤ a) (hd : a - b < 2 ^ 64) :
    ulong_sub a b = a - b := by
  unfold ulong_sub
  have e : a + 2 ^ 64 - b = (a - b) + 2 ^ 64 := by omega
  rw [e, Nat.add_mod_right, Nat.mod_eq_of_lt hd]

theorem ulong_sub_eq_zero_iff (a b : Nat) (ha : a < 2 ^ 64) (hb : b < 2 ^ 64) :
    ulong_sub a b = 0 ↔ a = b := by
  unfold ulong_sub
  constructor
  · intro h
    by_cases hab : b ≤ a
    · have e : a + 2 ^ 64 - b = (a - b) + 2 ^ 64 := by omega
      rw [e, Nat.add_mod_right, Nat.mod_eq_of_lt (by omega)] at h
      omega
    · rw [Nat.mod_eq_of_lt (by omega)] at h
      omega
  · intro h
    subst h
    have e : a + 2 ^ 64 - a = 2 ^ 64 := by omega
    rw [e, Nat.mod_self]

theorem cpu_idle_in_lt (ls : List (Option (List Nat))) (i idle : Nat) (h0 : idle < 2 ^ 64) :
    cpu_idle_in ls i idle < 2 ^ 64 := by
  induction ls generalizing i idle with
  | nil => unfold cpu_idle_in; exact h0
  | cons l ls ih =>
      cases l with
      | none => unfold cpu_idle_in; exact h0
      | some f =>
          cases i with
          | zero => unfold cpu_idle_in; exact h0
          | succ i =>
              unfold cpu_idle_in
              exact ih i _ (cpu_fields_idle_lt idle f h0)

theorem cpu_loop_length (cs : List sys_cpu_t) (ls : List (Option (List Nat))) (idle : Nat) :
    (cpu_loop cs ls idle).1.length = cs.length := by
  induction cs generalizing ls idle with
  | nil => simp [cpu_loop]
  | cons c cs ih =>
      cases ls with
      | nil => simp [cpu_loop]
      | cons l ls =>
          cases l with
          | none => simp [cpu_loop]
          | some f => simp [cpu_loop, ih]

theorem cpu_loop_core (cs : List sys_cpu_t) (ls : List (Option (List Nat))) (idle : Nat)
    (i : Nat) (c : sys_cpu_t) (fields : List Nat)
    (hc : cs[i]? = some c)
    (hprev : ∀ j, j < i → ∃ f, ls[j]? = some (some f))
    (hl : ls[i]? = some (some fields)) :
    (cpu_loop cs ls idle).1[i]? = some (cpu_line c (cpu_idle_in ls i idle) fields).1 := by
  induction cs generalizing ls idle i with
  | nil => simp at hc
  | cons c0 cs ih =>
      cases i with
      | zero =>
          cases ls with
          | nil => simp at hl
          | cons l ls =>
              simp only [List.getElem?_cons_zero, Option.some.injEq] at hl hc
              subst hl hc
              simp [cpu_loop, cpu_idle_in]
      | succ i =>
          obtain ⟨f, hf⟩ := hprev 0 (Nat.succ_pos i)
          cases ls with
          | nil => simp at hf
          | cons l ls =>
              simp only [List.getElem?_cons_zero, Option.some.injEq] at hf
              subst hf
              simp only [List.getElem?_cons_succ] at hl hc
              have hprev2 : ∀ j, j < i → ∃ g, ls[j]? = some (some g) := by
                intro j hj
                have := hprev (j + 1) (Nat.succ_lt_succ hj)
                simpa only [List.getElem?_cons_succ] using this
              have h2 := ih ls (cpu_line c0 idle f).2 i hc hprev2 hl
              simpa [cpu_loop, cpu_idle_in, cpu_line] using h2

theorem read_cpu_info_core (opts : app_data_t) (lines : List (Option (List Nat))) (i : Nat)
    (c : sys_cpu_t) (fields : List Nat) (hi : i < opts.n_cpus.toNat)
    (hc : opts.cpus[i]? = some c)
    (hprev : ∀ j, j < i → ∃ f, lines[j]? = some (some f))
    (hl : lines[i]? = some (some fields)) :
    (read_cpu_info opts (some lines)).1.cpus[i]? =
      some (cpu_line c (cpu_idle_in lines i 0) fields).1 := by
  have hc2 : (opts.cpus.take opts.n_cpus.toNat)[i]? = some c := by
    rw [List.getElem?_take_of_lt hi]; exact hc
  have h2 := cpu_loop_core (opts.cpus.take opts.n_cpus.toNat) lines 0 i c fields hc2 hprev hl
  have hlen : i < (cpu_loop (opts.cpus.take opts.n_cpus.toNat) lines 0).1.length := by
    rw [cpu_loop_length]
    by_contra hcon
    rw [List.getElem?_eq_none (not_lt.1 hcon)] at hc2
    exact absurd hc2 (by simp)
  have hcp : (read_cpu_info opts (some lines)).1.cpus =
      (cpu_loop (opts.cpus.take opts.n_cpus.toNat) lines 0).1 ++
        opts.cpus.drop opts.n_cpus.toNat := by
    unfold read_cpu_info
    dsimp only
    split <;> rfl
  rw [hcp, List.getElem?_append_left hlen]
  exact h2

theorem cpu_line_equal_sum (c : sys_cpu_t) (idle0 : Nat) (fields : List Nat) (idle sum : Nat)
    (hparse : cpu_fields idle0 fields = (idle, sum))
    (h0 : idle0 < 2 ^ 64) (hli : c.last_idle < 2 ^ 64)
    (heq : sum = c.last_sum) :
    cpu_divisor c sum = 0 ∧
    (cpu_line c idle0 fields).1 =
      { last_idle := idle, last_sum := sum,
        percent := if idle = c.last_idle then nan else ninf } := by
  have hs64 : sum < 2 ^ 64 := by
    have := cpu_fields_sum_lt idle0 fields
    rw [hparse] at this
    exact this
  have hi64 : idle < 2 ^ 64 := by
    have := cpu_fields_idle_lt idle0 fields h0
    rw [hparse] at this
    exact this
  have hd : cpu_divisor c sum = 0 := by
    unfold cpu_divisor
    exact (ulong_sub_eq_zero_iff _ _ hs64 (heq ▸ hs64)).2 heq
  refine ⟨hd, ?_⟩
  simp only [cpu_line, hparse, cpu_update]
  rw [hd]
  by_cases hii : idle = c.last_idle
  · have hz : ulong_sub idle c.last_idle = 0 := (ulong_sub_eq_zero_iff _ _ hi64 hli).2 hii
    rw [hz, if_pos hii]
    simp [FVal.ofNat, FVal.mul, FVal.div, FVal.signedInf, FVal.sub, FVal.neg, FVal.add]
  · have hne : ulong_sub idle c.last_idle ≠ 0 := fun h =>
      hii ((ulong_sub_eq_zero_iff _ _ hi64 hli).1 h)
    rw [if_neg hii]
    generalize ulong_sub idle c.last_idle = d at hne
    have hpos : (0 : ℚ) < (d : ℚ) := by
      have : 0 < d := Nat.pos_of_ne_zero hne
      exact_mod_cast this
    simp [FVal.ofNat, FVal.mul, FVal.div, FVal.signedInf, FVal.sub, FVal.neg, FVal.add, hne, hpos]

theorem cpu_update_with_id (c : sys_cpu_t) (idle sum : Nat) :
    cpu_update_with id id c idle sum = cpu_update c idle sum := by
  have h : ∀ v : FVal, FVal.round id v = v := by
    intro v
    cases v <;> rfl
  unfold cpu_update_with cpu_update
  simp only [h]

/-- C9, counterexample: a core with baseline `(800, 1000)` and 20 percent, and a
tick on which `/proc/stat` gives the line `cpu 100 0 100 800`, whose sum 1000
equals `last_sum`: the divisor of line 275 is 0 and the percentage stored is
`NaN`, not the 20 percent of the tick before. -/
theorem cpu_equal_sum_gives_nan :
    cpu_divisor { last_idle := 800, last_sum := 1000, percent := fin 20 }
      (cpu_fields 0 [100, 0, 100, 800]).2 = 0 ∧
    (read_cpu_info one_core_opts (some [some [100, 0, 100, 800]])).1.cpus =
      [{ last_idle := 800, last_sum := 1000, percent := nan }] ∧
    (read_cpu_info one_core_opts (some [some [100, 0, 100, 800]])).1.cpus ≠
      one_core_opts.cpus := by
  have hf : cpu_fields 0 [100, 0, 100, 800] = (800, 1000) := by
    simp [cpu_fields, strtoul, ULONG_MAX]
  have hd : ulong_sub 1000 1000 = 0 := by decide
  have hi : ulong_sub 800 800 = 0 := by decide
  have hr : (read_cpu_info one_core_opts (some [some [100, 0, 100, 800]])).1.cpus =
      [{ last_idle := 800, last_sum := 1000, percent := nan }] := by
    simp [read_cpu_info, one_core_opts, default_opts, cpu_loop, cpu_line, hf, cpu_update,
      cpu_divisor, hd, hi, FVal.ofNat, FVal.mul, FVal.div, FVal.signedInf, FVal.sub, FVal.neg,
      FVal.add]
  refine ⟨by rw [hf]; exact hd, hr, ?_⟩
  rw [hr]
  simp [one_core_opts]

/-- C9, amended. The CPU derivation has no guard for a zero divisor: for every
core (index `i` below `n_cpus`, state `c`) whose line is parsed on a tick with a
sample `(idle, sum)` whose sum equals the stored `last_sum`, the divisor
`sum - last_sum` of line 275 is 0, the division is performed all the same, and
the percentage the core ends the tick with is `NaN` when `idle` equals
`last_idle` and minus infinity otherwise; the baseline becomes `(idle, sum)`. -/
theorem cpu_equal_sum_divides_by_zero (opts : app_data_t) (lines : List (Option (List Nat)))
    (i : Nat) (c : sys_cpu_t) (fields : List Nat) (idle sum : Nat)
    (hi : i < opts.n_cpus.toNat)
    (hc : opts.cpus[i]? = some c)
    (hprev : ∀ j, j < i → ∃ f, lines[j]? = some (some f))
    (hl : lines[i]? = some (some fields))
    (hparse : cpu_fields (cpu_idle_in lines i 0) fields = (idle, sum))
    (hli : c.last_idle < 2 ^ 64)
    (heq : sum = c.last_sum) :
    cpu_divisor c sum = 0 ∧
    (read_cpu_info opts (some lines)).1.cpus[i]? =
      some { last_idle := idle, last_sum := sum,
             percent := if idle = c.last_idle then nan else ninf } := by
  obtain ⟨h1, h2⟩ := cpu_line_equal_sum c _ fields idle sum hparse
    (cpu_idle_in_lt lines i 0 (by norm_num)) hli heq
  refine ⟨h1, ?_⟩
  rw [read_cpu_info_core opts lines i c fields hi hc hprev hl, h2]

/-- C9, witness: the core and the line of the counterexample (`idle` equal to
`last_idle`, so `NaN`). -/
theorem cpu_equal_sum_divides_by_zero_witness :
    cpu_divisor { last_idle := 800, last_sum := 1000, percent := fin 20 } 1000 = 0 ∧
    (read_cpu_info one_core_opts (some [some [100, 0, 100, 800]])).1.cpus[0]? =
      some { last_idle := 800, last_sum := 1000, percent := nan } := by
  have h := cpu_equal_sum_divides_by_zero one_core_opts [some [100, 0, 100, 800]] 0
    { last_idle := 800, last_sum := 1000, percent := fin 20 } [100, 0, 100, 800] 800 1000
    (by simp [one_core_opts]) (by simp [one_core_opts])
    (by intro j hj; omega) rfl
    (by simp [cpu_idle_in, cpu_fields, strtoul, ULONG_MAX]) (by norm_num) rfl
  exact ⟨h.1, by simpa using h.2⟩

theorem strtoul_lt (n : Nat) : strtoul n < 2 ^ 64 := by
  unfold strtoul ULONG_MAX
  omega

theorem ulong_sub_of_lt (a b : Nat) (hab : a < b) :
    ulong_sub a b = a + 2 ^ 64 - b := by
  unfold ulong_sub
  exact Nat.mod_eq_of_lt (by omega)

theorem net_period_ms (opts : app_data_t) (p : Nat)
    (hper : opts.sample_period_nsec = p * 1000000) :
    net_period opts = fin ((p : ℚ) / 1000) := by
  unfold net_period FVal.ofNat
  rw [hper]
  have h9 : ¬ ((1000000000 : ℚ) = 0) := by norm_num
  simp only [FVal.div, if_neg h9]
  congr 1
  push_cast
  field_simp
  ring

theorem net_rate_of_le (per : ℚ) (bytes last : Nat) (hper : 0 < per)
    (hle : last ≤ bytes) (hb : bytes < 2 ^ 64) :
    net_rate (fin per) bytes last = fin (((bytes - last : Nat) : ℚ) / per) := by
  have e : ulong_sub bytes last = bytes - last :=
    ulong_sub_of_le _ _ hle (lt_of_le_of_lt (Nat.sub_le _ _) hb)
  unfold net_rate
  rw [e]
  simp only [FVal.ofNat, FVal.div, if_neg (ne_of_gt hper)]

theorem net_rate_of_lt (per : ℚ) (bytes last : Nat) (hper : 0 < per)
    (hlt : bytes < last) (hl : last < 2 ^ 64) :
    net_rate (fin per) bytes last = fin (((bytes + 2 ^ 64 - last : Nat) : ℚ) / per) ∧
    0 < ((bytes + 2 ^ 64 - last : Nat) : ℚ) / per := by
  have e : ulong_sub bytes last = bytes + 2 ^ 64 - last := ulong_sub_of_lt _ _ hlt
  have hpos : (0 : ℚ) < ((bytes + 2 ^ 64 - last : Nat) : ℚ) := by
    have : 0 < bytes + 2 ^ 64 - last := by omega
    exact_mod_cast this
  refine ⟨?_, div_pos hpos hper⟩
  unfold net_rate
  rw [e]
  simp only [FVal.ofNat, FVal.div, if_neg (ne_of_gt hper)]

theorem net_loop_core (period : FVal) (ns : List sys_net_inf_t) (rs : List net_read)
    (i : Nat) (n : sys_net_inf_t) (rxb txb : Nat)
    (hn : ns[i]? = some n)
    (hprev : ∀ j, j < i → ∃ a b, rs[j]? = some { rx := some a, tx := some b })
    (hr : rs[i]? = some { rx := some rxb, tx := some txb }) :
    (net_loop period ns rs).1[i]? =
      some { name := n.name, tx := strtoul txb, rx := strtoul rxb,
             rx_rate := net_rate period (strtoul rxb) n.rx,
             tx_rate := net_rate period (strtoul txb) n.tx } := by
  induction ns generalizing rs i with
  | nil => simp at hn
  | cons n0 ns ih =>
      cases i with
      | zero =>
          cases rs with
          | nil => simp at hr
          | cons r rs =>
              simp only [List.getElem?_cons_zero, Option.some.injEq] at hr hn
              subst hr hn
              simp [net_loop]
      | succ i =>
          obtain ⟨a, b, hab⟩ := hprev 0 (Nat.succ_pos i)
          cases rs with
          | nil => simp at hab
          | cons r rs =>
              simp only [List.getElem?_cons_zero, Option.some.injEq] at hab
              subst hab
              simp only [List.getElem?_cons_succ] at hr hn
              have hprev2 : ∀ j, j < i → ∃ a b, rs[j]? = some { rx := some a, tx := some b } := by
                intro j hj
                have := hprev (j + 1) (Nat.succ_lt_succ hj)
                simpa only [List.getElem?_cons_succ] using this
              have h2 := ih rs i hn hprev2 hr
              simpa [net_loop] using h2

theorem net_loop_ok (period : FVal) (ns : List sys_net_inf_t) (rs : List net_read)
    (hall : ∀ j, j < ns.length → ∃ a b, rs[j]? = some { rx := some a, tx := some b }) :
    (net_loop period ns rs).2 = 0 := by
  induction ns generalizing rs with
  | nil => simp [net_loop]
  | cons n0 ns ih =>
      obtain ⟨a, b, hab⟩ := hall 0 (by simp)
      cases rs with
      | nil => simp at hab
      | cons r rs =>
          simp only [List.getElem?_cons_zero, Option.some.injEq] at hab
          subst hab
          have hall2 : ∀ j, j < ns.length →
              ∃ a b, rs[j]? = some { rx := some a, tx := some b } := by
            intro j hj
            have := hall (j + 1) (by simp; omega)
            simpa only [List.getElem?_cons_succ] using this
          simpa [net_loop] using ih rs hall2

theorem read_net_statistic_core (opts : app_data_t) (reads : List net_read) (i : Nat)
    (n : sys_net_inf_t) (rxb txb p : Nat)
    (hper : opts.sample_period_nsec = p * 1000000)
    (hn : opts.net[i]? = some n)
    (hprev : ∀ j, j < i → ∃ a b, reads[j]? = some { rx := some a, tx := some b })
    (hr : reads[i]? = some { rx := some rxb, tx := some txb }) :
    (read_net_statistic opts reads).1.net[i]? =
      some { name := n.name, tx := strtoul txb, rx := strtoul rxb,
             rx_rate := net_rate (fin ((p : ℚ) / 1000)) (strtoul rxb) n.rx,
             tx_rate := net_rate (fin ((p : ℚ) / 1000)) (strtoul txb) n.tx } := by
  have h := net_loop_core (net_period opts) opts.net reads i n rxb txb hn hprev hr
  rw [net_period_ms opts p hper] at h
  show (net_loop (net_period opts) opts.net reads).1[i]? = _
  rw [net_period_ms opts p hper]
  exact h

theorem net_conf_loaded :
    (load_config (some net_conf)).1 =
      { default_opts with
        net := [{ name := "eth0", tx := 0, rx := 0, rx_rate := fin 0, tx_rate := fin 0 }],
        sample_period_nsec := 300 * 1000000 } ∧
    (load_config (some net_conf)).2 = 0 := by
  constructor
  · simp [net_conf, load_config, ini_handle, ini_number, default_opts, strtoul, ULONG_MAX]
  · simp [net_conf, load_config, ini_handle, ini_number, default_opts, strtoul, ULONG_MAX,
      battery_check]

/-! ## Claims on the network rate sampler -/

/-- C12. Network rate formula: for every interface (index `i`, state `n`) whose
two files are read on a tick, with a sample period of `p > 0` milliseconds, and
for each of rx and tx, when the counter just read is at least the stored one,
`read_net_statistic` sets the rate to
`(counter_now - counter_prev) / (p / 1000)` bytes per second; it stores the
counters just read as the new baseline. -/
theorem net_rate_formula (opts : app_data_t) (reads : List net_read) (i : Nat)
    (n : sys_net_inf_t) (rxb txb p : Nat)
    (hp : 0 < p) (hper : opts.sample_period_nsec = p * 1000000)
    (hn : opts.net[i]? = some n)
    (hprev : ∀ j, j < i → ∃ a b, reads[j]? = some { rx := some a, tx := some b })
    (hr : reads[i]? = some { rx := some rxb, tx := some txb }) :
    ∃ rr tr : FVal,
      (read_net_statistic opts reads).1.net[i]? =
        some { name := n.name, tx := strtoul txb, rx := strtoul rxb,
               rx_rate := rr, tx_rate := tr } ∧
      (n.rx ≤ strtoul rxb →
        rr = fin (((strtoul rxb - n.rx : Nat) : ℚ) / ((p : ℚ) / 1000))) ∧
      (n.tx ≤ strtoul txb →
        tr = fin (((strtoul txb - n.tx : Nat) : ℚ) / ((p : ℚ) / 1000))) := by
  have hpq : (0 : ℚ) < (p : ℚ) / 1000 := by
    have : (0 : ℚ) < (p : ℚ) := by exact_mod_cast hp
    positivity
  refine ⟨_, _, read_net_statistic_core opts reads i n rxb txb p hper hn hprev hr, ?_, ?_⟩
  · intro hle
    exact net_rate_of_le _ _ _ hpq hle (strtoul_lt rxb)
  · intro hle
    exact net_rate_of_le _ _ _ hpq hle (strtoul_lt txb)

/-- C12, witness: the configuration file with `sample_period = 300`, the stored
counters 1000 and a tick that reads 2000 for both: the rates are
`1000 / (300 / 1000)`, that is 3333.33... bytes per second. -/
theorem net_rate_formula_witness :
    (read_net_statistic (net_opts 1000 1000) [{ rx := some 2000, tx := some 2000 }]).1.net[0]? =
      some { name := "eth0", tx := 2000, rx := 2000,
             rx_rate := fin (10000 / 3), tx_rate := fin (10000 / 3) } := by
  obtain ⟨rr, tr, h, hrx, htx⟩ := net_rate_formula (net_opts 1000 1000)
    [{ rx := some 2000, tx := some 2000 }] 0
    { name := "eth0", tx := 1000, rx := 1000, rx_rate := fin 0, tx_rate := fin 0 }
    2000 2000 300 (by norm_num)
    (by simp [net_opts, net_conf_loaded.1])
    (by simp [net_opts]) (by intro j hj; omega) rfl
  have e : strtoul 2000 = 2000 := by simp [strtoul, ULONG_MAX]
  rw [e] at h hrx htx
  rw [h, hrx (by norm_num), htx (by norm_num)]
  norm_num

/-- C11, counterexample: the interface has the stored counters 2000 and a tick
reads 1000 for both, with the period of 300 milliseconds: the rates reported are
not 0 but `(1000 + 2 ^ 64 - 2000) / 0.3`, about `6.1 * 10 ^ 19` bytes per second. -/
theorem net_decrease_rate_not_zero :
    (read_net_statistic (net_opts 2000 2000) [{ rx := some 1000, tx := some 1000 }]).1.net[0]? =
      some { name := "eth0", tx := 1000, rx := 1000,
             rx_rate := fin 61489146912365168720, tx_rate := fin 61489146912365168720 } := by
  have h := read_net_statistic_core (net_opts 2000 2000)
    [{ rx := some 1000, tx := some 1000 }] 0
    { name := "eth0", tx := 2000, rx := 2000, rx_rate := fin 0, tx_rate := fin 0 }
    1000 1000 300
    (by simp [net_opts, net_conf_loaded.1])
    (by simp [net_opts]) (by intro j hj; omega) rfl
  have e : strtoul 1000 = 1000 := by simp [strtoul, ULONG_MAX]
  rw [e] at h
  have hr := (net_rate_of_lt ((300 : Nat) / 1000 : ℚ) 1000 2000 (by norm_num) (by norm_num)
    (by norm_num)).1
  rw [h, hr]
  norm_num

/-- C11, amended. Network counter decrease: for every interface (index `i`, state
`n`) and a sample period of `p > 0` milliseconds, on a tick on which every file
is read, `read_net_statistic` returns 0 (no error) and stores the counters just
read as the baseline; for each of rx and tx, when the counter just read is
strictly smaller than the stored one, the rate it reports is not 0: the unsigned
difference wraps and the rate is
`(counter_now + 2 ^ 64 - counter_prev) / (p / 1000)` bytes per second. -/
theorem net_counter_decrease (opts : app_data_t) (reads : List net_read) (i : Nat)
    (n : sys_net_inf_t) (rxb txb p : Nat)
    (hp : 0 < p) (hper : opts.sample_period_nsec = p * 1000000)
    (hn : opts.net[i]? = some n)
    (hall : ∀ j, j < opts.net.length → ∃ a b, reads[j]? = some { rx := some a, tx := some b })
    (hr : reads[i]? = some { rx := some rxb, tx := some txb })
    (hrx64 : n.rx < 2 ^ 64) (htx64 : n.tx < 2 ^ 64) :
    ∃ rr tr : FVal,
      (read_net_statistic opts reads).1.net[i]? =
        some { name := n.name, tx := strtoul txb, rx := strtoul rxb,
               rx_rate := rr, tx_rate := tr } ∧
      (read_net_statistic opts reads).2 = 0 ∧
      (strtoul rxb < n.rx →
        rr = fin (((strtoul rxb + 2 ^ 64 - n.rx : Nat) : ℚ) / ((p : ℚ) / 1000)) ∧
        rr ≠ fin 0) ∧
      (strtoul txb < n.tx →
        tr = fin (((strtoul txb + 2 ^ 64 - n.tx : Nat) : ℚ) / ((p : ℚ) / 1000)) ∧
        tr ≠ fin 0) := by
  have hpq : (0 : ℚ) < (p : ℚ) / 1000 := by
    have : (0 : ℚ) < (p : ℚ) := by exact_mod_cast hp
    positivity
  have hilt : i < opts.net.length := by
    by_contra hcon
    rw [List.getElem?_eq_none (not_lt.1 hcon)] at hn
    exact absurd hn (by simp)
  have hprev : ∀ j, j < i → ∃ a b, reads[j]? = some { rx := some a, tx := some b } :=
    fun j hj => hall j (lt_trans hj hilt)
  refine ⟨_, _, read_net_statistic_core opts reads i n rxb txb p hper hn hprev hr,
    net_loop_ok _ _ _ hall, ?_, ?_⟩
  · intro hlt
    obtain ⟨h1, h2⟩ := net_rate_of_lt _ (strtoul rxb) n.rx hpq hlt hrx64
    refine ⟨h1, ?_⟩
    rw [h1]
    intro hc
    rw [FVal.fin.injEq] at hc
    exact absurd hc (ne_of_gt h2)
  · intro hlt
    obtain ⟨h1, h2⟩ := net_rate_of_lt _ (strtoul txb) n.tx hpq hlt htx64
    refine ⟨h1, ?_⟩
    rw [h1]
    intro hc
    rw [FVal.fin.injEq] at hc
    exact absurd hc (ne_of_gt h2)

/-- C11, witness: the interface and the tick of the counterexample. -/
theorem net_counter_decrease_witness :
    (read_net_statistic (net_opts 2000 2000) [{ rx := some 1000, tx := some 1000 }]).2 = 0 ∧
    ∃ rr tr : FVal,
      (read_net_statistic (net_opts 2000 2000)
        [{ rx := some 1000, tx := some 1000 }]).1.net[0]? =
        some { name := "eth0", tx := 1000, rx := 1000, rx_rate := rr, tx_rate := tr } ∧
      rr ≠ fin 0 ∧ tr ≠ fin 0 := by
  obtain ⟨rr, tr, h, hok, hrx, htx⟩ := net_counter_decrease (net_opts 2000 2000)
    [{ rx := some 1000, tx := some 1000 }] 0
    { name := "eth0", tx := 2000, rx := 2000, rx_rate := fin 0, tx_rate := fin 0 }
    1000 1000 300 (by norm_num)
    (by simp [net_opts, net_conf_loaded.1])
    (by simp [net_opts])
    (by
      intro j hj
      have : j = 0 := by simpa [net_opts] using hj
      subst this
      exact ⟨1000, 1000, rfl⟩)
    rfl (by norm_num) (by norm_num)
  have e : strtoul 1000 = 1000 := by simp [strtoul, ULONG_MAX]
  rw [e] at h hrx htx
  exact ⟨hok, rr, tr, h, (hrx (by norm_num)).2, (htx (by norm_num)).2⟩

/-! ## Claims on a failed CPU line -/

theorem cpu_loop_tail (cs : List sys_cpu_t) (ls : List (Option (List Nat))) (idle : Nat)
    (i : Nat)
    (hprev : ∀ j, j < i → ∃ f, ls[j]? = some (some f))
    (hfail : ∀ f, ls[i]? ≠ some (some f))
    (k : Nat) (hk : i ≤ k) :
    (cpu_loop cs ls idle).1[k]? = cs[k]? := by
  induction cs generalizing ls idle i k with
  | nil => simp [cpu_loop]
  | cons c0 cs ih =>
      cases i with
      | zero =>
          cases ls with
          | nil => simp [cpu_loop]
          | cons l ls =>
              cases l with
              | none => simp [cpu_loop]
              | some f => exact absurd (by simp) (hfail f)
      | succ i =>
          obtain ⟨f, hf⟩ := hprev 0 (Nat.succ_pos i)
          cases ls with
          | nil => simp at hf
          | cons l ls =>
              simp only [List.getElem?_cons_zero, Option.some.injEq] at hf
              subst hf
              cases k with
              | zero => omega
              | succ k =>
                  have hprev2 : ∀ j, j < i → ∃ g, ls[j]? = some (some g) := by
                    intro j hj
                    have := hprev (j + 1) (Nat.succ_lt_succ hj)
                    simpa only [List.getElem?_cons_succ] using this
                  have hfail2 : ∀ g, ls[i]? ≠ some (some g) := by
                    intro g
                    have := hfail g
                    simpa only [List.getElem?_cons_succ] using this
                  have h2 := ih ls (cpu_line c0 idle f).2 i hprev2 hfail2 k (Nat.le_of_succ_le_succ hk)
                  simpa [cpu_loop] using h2

theorem append_drop_getElem? (a l : List sys_cpu_t) (m k : Nat)
    (hlen : a.length = (l.take m).length) (hk : a[k]? = (l.take m)[k]?) :
    (a ++ l.drop m)[k]? = l[k]? := by
  have hl : l[k]? = (l.take m ++ l.drop m)[k]? := by rw [List.take_append_drop]
  rw [hl]
  by_cases h : k < a.length
  · rw [List.getElem?_append_left h, List.getElem?_append_left (hlen ▸ h), hk]
  · rw [List.getElem?_append_right (not_lt.1 h),
      List.getElem?_append_right (hlen ▸ not_lt.1 h), hlen]

/-- C13, counterexample: two CPU lines with 20 percent each from the tick
before, and a tick on which `/proc/stat` gives `cpu 250 0 100 850` and then a line
that cannot be read: `read_cpu_info` returns 1, the second core keeps its state,
but the first core, whose line was parsed, now has 75 percent and a new
baseline. -/
theorem cpu_failure_keeps_earlier_updates :
    read_cpu_info two_core_opts (some [some [250, 0, 100, 850], none]) =
      ({ two_core_opts with
         cpus := [{ last_idle := 850, last_sum := 1200, percent := fin 75 },
                  { last_idle := 400, last_sum := 500, percent := fin 20 }] }, 1) ∧
    (two_core_opts.cpus.map sys_cpu_t.percent) = [fin 20, fin 20] := by
  have hf : cpu_fields 0 [250, 0, 100, 850] = (850, 1200) := by
    simp [cpu_fields, strtoul, ULONG_MAX]
  have h1 : ulong_sub 1200 1000 = 200 := by decide
  have h2 : ulong_sub 850 800 = 50 := by decide
  constructor
  · simp [read_cpu_info, two_core_opts, default_opts, cpu_loop, cpu_line, hf, cpu_update,
      cpu_divisor, h1, h2, FVal.ofNat, FVal.mul, FVal.div, FVal.sub, FVal.neg, FVal.add]
    norm_num
  · simp [two_core_opts]

/-- C13, amended. A CPU parse failure stops the derivation where it happens: for
every tick in which the lines of the cores below index `i` are parsed and the
line of core `i` cannot be read or does not start with `cpu`, `read_cpu_info`
leaves core `i` and every core after it (percentage and baseline) as the tick
before left them, while every core below `i` has been given the percentage and
the baseline computed from its line on this tick. -/
theorem cpu_parse_failure (opts : app_data_t) (lines : List (Option (List Nat))) (i : Nat)
    (hprev : ∀ j, j < i → ∃ f, lines[j]? = some (some f))
    (hfail : ∀ f, lines[i]? ≠ some (some f)) :
    (∀ k, i ≤ k → (read_cpu_info opts (some lines)).1.cpus[k]? = opts.cpus[k]?) ∧
    (∀ j c f, j < i → j < opts.n_cpus.toNat → opts.cpus[j]? = some c →
      lines[j]? = some (some f) →
      (read_cpu_info opts (some lines)).1.cpus[j]? =
        some (cpu_update c (cpu_fields (cpu_idle_in lines j 0) f).1
          (cpu_fields (cpu_idle_in lines j 0) f).2)) := by
  have hcp : (read_cpu_info opts (some lines)).1.cpus =
      (cpu_loop (opts.cpus.take opts.n_cpus.toNat) lines 0).1 ++
        opts.cpus.drop opts.n_cpus.toNat := by
    unfold read_cpu_info
    dsimp only
    split <;> rfl
  constructor
  · intro k hk
    rw [hcp]
    exact append_drop_getElem? _ _ _ _ (cpu_loop_length _ _ _)
      (cpu_loop_tail _ lines 0 i hprev hfail k hk)
  · intro j c f hj hjn hc hl
    have hprevj : ∀ m, m < j → ∃ g, lines[m]? = some (some g) :=
      fun m hm => hprev m (lt_trans hm hj)
    rw [read_cpu_info_core opts lines j c f hjn hc hprevj hl]
    rfl

/-- C13, witness: the cores and the tick of the counterexample, with the failure
at index 1: the second core is as before, the first has 75 percent. -/
theorem cpu_parse_failure_witness :
    (read_cpu_info two_core_opts (some [some [250, 0, 100, 850], none])).1.cpus[1]? =
      some { last_idle := 400, last_sum := 500, percent := fin 20 } ∧
    (read_cpu_info two_core_opts (some [some [250, 0, 100, 850], none])).1.cpus[0]? =
      some { last_idle := 850, last_sum := 1200, percent := fin 75 } := by
  have h := cpu_parse_failure two_core_opts [some [250, 0, 100, 850], none] 1
    (by
      intro j hj
      have : j = 0 := by omega
      subst this
      exact ⟨[250, 0, 100, 850], rfl⟩)
    (by intro f; simp)
  have hf : cpu_fields (cpu_idle_in [some [250, 0, 100, 850], none] 0 0) [250, 0, 100, 850] =
      (850, 1200) := by
    simp [cpu_idle_in, cpu_fields, strtoul, ULONG_MAX]
  have h1 : ulong_sub 1200 1000 = 200 := by decide
  have h2 : ulong_sub 850 800 = 50 := by decide
  have hu : cpu_update { last_idle := 800, last_sum := 1000, percent := fin 20 } 850 1200 =
      { last_idle := 850, last_sum := 1200, percent := fin 75 } := by
    simp [cpu_update, cpu_divisor, h1, h2, FVal.ofNat, FVal.mul, FVal.div, FVal.sub, FVal.neg,
      FVal.add]
    norm_num
  have h0 := h.2 0 { last_idle := 800, last_sum := 1000, percent := fin 20 }
    [250, 0, 100, 850] (by norm_num) (by simp [two_core_opts]) (by simp [two_core_opts]) rfl
  rw [hf, hu] at h0
  refine ⟨?_, h0⟩
  rw [h.1 1 (le_refl 1)]
  simp [two_core_opts]

end Sysmond
